import Mathlib

/-!
Verification development for the SmartDocChecker contradiction-detection
pipeline.  The Lean definitions below are a shallow embedding of the Python
source under `backend/`: the rule checker (`services/rule_checker.py`), the
NER entity checks (`services/ner_service.py`), the NLI batch wrapper
(`services/nli_service.py`), the two workers
(`workers/processing_worker.py`, `workers/comparison_worker.py`) and the
PDF cleanup of the text extractor (`utils/text_extractor.py`).

Machine-learning models (the sentence encoder, the spaCy NER model and the
NLI cross-encoder) are external to the repository; they enter the embedding
as function parameters (oracles), exactly at the call sites where the
Python code invokes them.  Floating point is modelled by `ℚ`, and Python's
`round(x, 1)` by exact decimal round-half-to-even on `ℚ`.
-/

namespace SmartDoc

/-- The single-quote character, built by code point to keep source plain. -/
def sq : Char := Char.ofNat 39

/-- Whitespace test matching Python `str.split()` / `\s` for the ASCII
range that the pipeline's documents use. -/
def isSpaceChar (c : Char) : Bool :=
  c = ' ' || c = '\t' || c = '\n' || c = '\r' || c = Char.ofNat 11 || c = Char.ofNat 12

/-- Word-constituent character for Python's regex `\b` boundaries (`\w`),
restricted to the ASCII range. -/
def isWordChar (c : Char) : Bool :=
  c.isAlpha || c.isDigit || c = '_'

/-- Split a character list on whitespace, dropping empty pieces: the
semantics of Python `str.split()` with no argument. -/
def splitWsAux : List Char → List Char → List String
  | [], [] => []
  | [], acc => [String.mk acc.reverse]
  | c :: cs, acc =>
    if isSpaceChar c then
      match acc with
      | [] => splitWsAux cs []
      | _ => String.mk acc.reverse :: splitWsAux cs []
    else
      splitWsAux cs (c :: acc)

/-- Python `text.split()`. -/
def pySplit (s : String) : List String :=
  splitWsAux s.data []

/-- Python `str.strip(chars)`: remove the given characters from both ends. -/
def stripChars (cs : List Char) (s : String) : String :=
  String.mk (((s.data.dropWhile (· ∈ cs)).reverse.dropWhile (· ∈ cs)).reverse)

/-- Python `str.strip()` (whitespace from both ends). -/
def pyStrip (s : String) : String :=
  String.mk (((s.data.dropWhile (isSpaceChar ·)).reverse.dropWhile (isSpaceChar ·)).reverse)

/-- Python `str.rstrip(chars)`. -/
def rstripChars (cs : List Char) (s : String) : String :=
  String.mk ((s.data.reverse.dropWhile (· ∈ cs)).reverse)

/-- The punctuation set `'.,;:!?\'"()'` used by the workers when cleaning
tokens for the semantic-description diff. -/
def descPunct : List Char :=
  ['.', ',', ';', ':', '!', '?', sq, '"', '(', ')']

/-- The punctuation removed by `re.sub(r'[,;.!?]', '', word)` in the rule
checker. -/
def rulePunct : List Char := [',', ';', '.', '!', '?']

/-- Remove every occurrence of the given characters (Python
`re.sub('[...]', '', w)`). -/
def removeChars (cs : List Char) (s : String) : String :=
  String.mk (s.data.filter (· ∉ cs))

/-- ASCII lower-casing, the effect of Python `str.lower()` on the
pipeline's texts (`String.toLower`, spelled out over the character
list so that it evaluates in the kernel). -/
def pyLower (s : String) : String :=
  String.mk (s.data.map Char.toLower)

/-- Python `sep.join(l)`. -/
def pyJoin (sep : String) : List String → String
  | [] => ""
  | x :: xs => xs.foldl (fun acc y => acc ++ sep ++ y) x

/-- Occurrence of `w` as a contiguous sublist of `t`. -/
def substrOccursAux (w : List Char) : List Char → Bool
  | [] => w.isEmpty
  | x :: rest => w.isPrefixOf (x :: rest) || substrOccursAux w rest

/-- Substring test: Python `w in t`. -/
def containsSubstr (t w : String) : Bool :=
  substrOccursAux w.data t.data

/-- Python `s.split(c)` for a single-character separator (empty pieces
are kept). -/
def splitCharAux (c : Char) : List Char → List Char → List String
  | [], acc => [String.mk acc.reverse]
  | x :: xs, acc =>
    if x = c then String.mk acc.reverse :: splitCharAux c xs []
    else splitCharAux c xs (x :: acc)

/-- `raw_text.split(chr)`. -/
def pySplitChar (c : Char) (s : String) : List String :=
  splitCharAux c s.data []

/-- Round half to even on `ℚ`, the rounding mode of Python's `round`. -/
def rhe (x : ℚ) : ℤ :=
  if x - ⌊x⌋ < 1/2 then ⌊x⌋
  else if 1/2 < x - ⌊x⌋ then ⌊x⌋ + 1
  else if ⌊x⌋ % 2 = 0 then ⌊x⌋ else ⌊x⌋ + 1

/-- Python `round(x, 1)` as exact decimal rounding on `ℚ`. -/
def pyRound1 (x : ℚ) : ℚ :=
  (rhe (x * 10) : ℚ) / 10

theorem floor_le_rhe (x : ℚ) : ⌊x⌋ ≤ rhe x := by
  unfold rhe
  split
  · exact le_refl _
  · split
    · exact Int.le.intro 1 rfl
    · split
      · exact le_refl _
      · exact Int.le.intro 1 rfl

theorem rhe_le_of_le {x : ℚ} {n : ℤ} (h : x ≤ (n : ℚ)) : rhe x ≤ n := by
  have hf : ⌊x⌋ ≤ n := by
    have h2 := Int.floor_le_floor h
    simpa using h2
  unfold rhe
  split
  · exact hf
  · rename_i h1
    push_neg at h1
    have hlt : (⌊x⌋ : ℚ) < x := by linarith
    have hq : (⌊x⌋ : ℚ) < (n : ℚ) := lt_of_lt_of_le hlt h
    have hn : ⌊x⌋ < n := by exact_mod_cast hq
    split
    · omega
    · split
      · exact hf
      · omega

theorem le_rhe_of_le {x : ℚ} {n : ℤ} (h : (n : ℚ) ≤ x) : n ≤ rhe x := by
  have hf : n ≤ ⌊x⌋ := Int.le_floor.mpr h
  exact hf.trans (floor_le_rhe x)

/-- The 54-word stop list `_STOP` of `rule_checker.py`; the same literal
set appears in `ner_service.check_entity_contradictions`. -/
def stopRule : List String :=
  ["the", "a", "an", "is", "are", "was", "were", "be", "been", "being",
   "have", "has", "had", "do", "does", "did", "will", "would", "shall",
   "should", "may", "might", "can", "could", "of", "in", "to", "for",
   "and", "or", "but", "on", "at", "by", "with", "from", "as", "into",
   "that", "this", "it", "its", "not", "no", "if", "so", "than", "then",
   "such", "also", "any", "all", "each", "every", "both", "other"]

/-- The shorter stop list used by the word-overlap pre-filter in both
workers (`processing_worker.py` and `comparison_worker.py`). -/
def stopWorker : List String :=
  ["the", "a", "an", "is", "are", "was", "were", "be", "been", "being",
   "have", "has", "had", "do", "does", "did", "will", "would", "shall",
   "should", "may", "might", "can", "could", "of", "in", "to", "for",
   "and", "or", "but", "on", "at", "by", "with", "from", "as", "into",
   "that", "this", "it", "its", "not", "no", "if", "so", "than", "then"]

/-- The stop list of `_build_semantic_description` in both workers. -/
def stopDesc : List String :=
  stopRule ++ ["must", "minimum", "maximum"]

/-- Content-word set of a text for a given stop list:
`{w for w in text.lower().split() if w not in stop and len(w) > 2}`,
modelled as a de-duplicated list. -/
def contentSet (stop : List String) (text : String) : List String :=
  ((pySplit (pyLower text)).filter (fun w => w ∉ stop ∧ 2 < w.length)).dedup

/-- `rule_checker._content_overlap`: content-word overlap ratio
`|A ∩ B| / max(|A|, |B|)`, `0` when either side is empty. -/
def contentOverlap (ta tb : String) : ℚ :=
  let wa := contentSet stopRule ta
  let wb := contentSet stopRule tb
  if wa = [] ∨ wb = [] then 0
  else ((wa.filter (· ∈ wb)).length : ℚ) / (max wa.length wb.length : ℚ)

theorem filterMem_length_comm {la lb : List String} (ha : la.Nodup) (hb : lb.Nodup) :
    (la.filter (· ∈ lb)).length = (lb.filter (· ∈ la)).length := by
  have h1 : (la.filter (· ∈ lb)).toFinset = la.toFinset ∩ lb.toFinset := by
    ext x
    simp [List.mem_filter, List.mem_toFinset, Finset.mem_inter]
  have h2 : (lb.filter (· ∈ la)).toFinset = lb.toFinset ∩ la.toFinset := by
    ext x
    simp [List.mem_filter, List.mem_toFinset, Finset.mem_inter]
  have c1 : (la.filter (· ∈ lb)).length = (la.toFinset ∩ lb.toFinset).card := by
    rw [← h1, List.toFinset_card_of_nodup (ha.filter _)]
  have c2 : (lb.filter (· ∈ la)).length = (lb.toFinset ∩ la.toFinset).card := by
    rw [← h2, List.toFinset_card_of_nodup (hb.filter _)]
  rw [c1, c2, Finset.inter_comm]

theorem contentSet_nodup (stop : List String) (t : String) : (contentSet stop t).Nodup := by
  unfold contentSet
  exact List.nodup_dedup _

theorem contentOverlap_comm (ta tb : String) : contentOverlap ta tb = contentOverlap tb ta := by
  unfold contentOverlap
  have hinter : ∀ (la lb : List String), la.Nodup → lb.Nodup →
      (la.filter (· ∈ lb)).length = (lb.filter (· ∈ la)).length :=
    fun la lb ha hb => filterMem_length_comm ha hb
  by_cases h1 : contentSet stopRule ta = []
  · by_cases h2 : contentSet stopRule tb = [] <;> simp [h1, h2]
  · by_cases h2 : contentSet stopRule tb = []
    · simp [h1, h2]
    · simp only [h1, h2, or_false, false_or, if_false, eq_self_iff_true]
      have hna : (contentSet stopRule ta).Nodup := by
        unfold contentSet
        exact List.nodup_dedup _
      have hnb : (contentSet stopRule tb).Nodup := by
        unfold contentSet
        exact List.nodup_dedup _
      rw [hinter (contentSet stopRule ta) (contentSet stopRule tb) hna hnb]
      rw [max_comm ((contentSet stopRule ta).length : ℚ) ((contentSet stopRule tb).length : ℚ)]

/-- The `_NUMBER_WORDS` table of `rule_checker.py`. -/
def numberWords : List (String × String) :=
  [("zero", "0"), ("one", "1"), ("two", "2"), ("three", "3"), ("four", "4"),
   ("five", "5"), ("six", "6"), ("seven", "7"), ("eight", "8"), ("nine", "9"),
   ("ten", "10"), ("eleven", "11"), ("twelve", "12"), ("thirteen", "13"),
   ("fourteen", "14"), ("fifteen", "15"), ("sixteen", "16"), ("seventeen", "17"),
   ("eighteen", "18"), ("nineteen", "19"), ("twenty", "20"), ("thirty", "30"),
   ("forty", "40"), ("fifty", "50"), ("sixty", "60"), ("seventy", "70"),
   ("eighty", "80"), ("ninety", "90"), ("hundred", "100"), ("thousand", "1000"),
   ("once", "1"), ("twice", "2"), ("thrice", "3"),
   ("first", "1"), ("second", "2"), ("third", "3"), ("fourth", "4"), ("fifth", "5")]

/-- Scanner state for the regex `\b\d+(?:\.\d+)?\b` over a character
stream (used by `_extract_numbers`). -/
inductive NumSt
  | idle (prevW : Bool)
  | inInt (acc : List Char)
  | afterDot (ip : List Char)
  | inFrac (ip : List Char) (fp : List Char)

/-- One step of the digit-pattern scanner: next state and the numbers
emitted by consuming this character. -/
def numStep : NumSt → Char → NumSt × List String
  | .idle p, c =>
    if c.isDigit && !p then (.inInt [c], [])
    else (.idle (isWordChar c), [])
  | .inInt acc, c =>
    if c.isDigit then (.inInt (acc ++ [c]), [])
    else if c = '.' then (.afterDot acc, [])
    else if isWordChar c then (.idle true, [])
    else (.idle false, [String.mk acc])
  | .afterDot ip, c =>
    if c.isDigit then (.inFrac ip [c], [])
    else (.idle (isWordChar c), [String.mk ip])
  | .inFrac ip fp, c =>
    if c.isDigit then (.inFrac ip (fp ++ [c]), [])
    else if isWordChar c then (.idle true, [String.mk ip])
    else (.idle false, [String.mk (ip ++ '.' :: fp)])

/-- Numbers emitted at end of input. -/
def numFinish : NumSt → List String
  | .idle _ => []
  | .inInt acc => [String.mk acc]
  | .afterDot ip => [String.mk ip]
  | .inFrac ip fp => [String.mk (ip ++ '.' :: fp)]

/-- Run the digit-pattern scanner over a character list. -/
def scanNumsAux : NumSt → List Char → List String
  | st, [] => numFinish st
  | st, c :: cs =>
    (numStep st c).2 ++ scanNumsAux (numStep st c).1 cs

/-- `re.findall(r'\b\d+(?:\.\d+)?\b', text)`. -/
def scanNums (s : String) : List String :=
  scanNumsAux (.idle false) s.data

/-- `rule_checker._extract_numbers`: digit-pattern matches plus
number-word table hits over the lower-cased whitespace tokens. -/
def extractNumbers (text : String) : List String :=
  scanNums text ++
    (pySplit (pyLower text)).filterMap (fun w => numberWords.lookup (removeChars rulePunct w))

/-- A clause row: stable identifier and verbatim sentence text.  UUIDs are
modelled by natural numbers. -/
structure Clause where
  id : ℕ
  text : String
deriving DecidableEq, Repr

/-- A rule violation as produced by `rule_checker` / `ner_service`
(the Python dicts with keys clause_a, clause_b, type, severity,
description, confidence). -/
structure Violation where
  clause_a : Clause
  clause_b : Clause
  vtype : String
  severity : String
  description : String
  confidence : ℚ
deriving DecidableEq, Repr

/-- Full-string test for `^\d+(?:\.\d+)?$` (used on cleaned words in
`_extract_number_with_context`). -/
def isNumToken (s : String) : Bool :=
  let d1 := s.data.takeWhile (·.isDigit)
  let r := s.data.dropWhile (·.isDigit)
  (!d1.isEmpty) &&
    (r.isEmpty ||
      (match r with
       | '.' :: t => (!t.isEmpty) && t.all (·.isDigit)
       | _ => false))

/-- One extracted number with its surrounding context
(`_extract_number_with_context` result entries). -/
structure NumDetail where
  num : String
  original : String
  context : String
deriving DecidableEq, Repr

/-- The trailing-context punctuation `'.,;:!?'` stripped from context. -/
def ctxPunct : List Char := ['.', ',', ';', ':', '!', '?']

/-- `rule_checker._extract_number_with_context`. -/
def extractNumberWithContext (text : String) : List NumDetail :=
  let words := pySplit text
  words.enum.filterMap (fun p =>
    let clean := removeChars rulePunct p.2
    let num? : Option String :=
      if isNumToken clean then some clean
      else numberWords.lookup (pyLower clean)
    num?.map (fun n =>
      ⟨n, clean, rstripChars ctxPunct (pyJoin " " ((words.drop (p.1 + 1)).take 2))⟩))

/-- Stable pick of the entry with the most context hits: models
`scored.sort(key=lambda x: -x[0]); scored[0][1]` (Python's sort is
stable, so ties keep the earliest entry). -/
def pickMaxHits (l : List (ℕ × NumDetail)) : Option NumDetail :=
  (l.foldl (fun acc p =>
    match acc with
    | none => some p
    | some q => if q.1 < p.1 then some p else some q) none).map (·.2)

/-- Python `sorted` on strings (lexicographic code-point order). -/
def sortStr (l : List String) : List String :=
  l.mergeSort (fun a b => decide (a ≤ b))

/-- The `_best_detail` helper inside `_build_numeric_description`. -/
def bestDetail (details : List NumDetail) (onlySet : List String) (otherText : String) :
    Option String :=
  let scored := details.filterMap (fun d =>
    if d.num ∈ onlySet then
      some (((pySplit (pyLower d.context)).filter (fun w => 2 < w.length)).countP
              (fun w => containsSubstr otherText w), d)
    else none)
  (pickMaxHits scored).map (fun d => pyStrip (d.original ++ " " ++ d.context))

/-- `rule_checker._build_numeric_description`. -/
def buildNumericDescription (textA textB : String) (numsA numsB : List String) : String :=
  let onlyA := numsA.dedup.filter (· ∉ numsB)
  let onlyB := numsB.dedup.filter (· ∉ numsA)
  let labelA := bestDetail (extractNumberWithContext textA) onlyA (pyLower textB)
  let labelB := bestDetail (extractNumberWithContext textB) onlyB (pyLower textA)
  match labelA, labelB with
  | some la, some lb => "Numeric conflict: " ++ la ++ " vs " ++ lb
  | _, _ =>
    if onlyA ≠ [] ∧ onlyB ≠ [] then
      "Numeric conflict: " ++ pyJoin ", " (sortStr onlyA) ++ " vs " ++
        pyJoin ", " (sortStr onlyB)
    else "Numeric conflict: values differ between statements"

/-- `rule_checker.check_numeric_mismatch`. -/
def checkNumericMismatch (a b : Clause) : Option Violation :=
  if (pySplit a.text).length < 8 ∨ (pySplit b.text).length < 8 then none
  else if extractNumbers a.text = [] ∨ extractNumbers b.text = [] then none
  else if sortStr (extractNumbers a.text) = sortStr (extractNumbers b.text) then none
  else if contentOverlap a.text b.text < 2/5 then none
  else some ⟨a, b, "numeric", "high",
             buildNumericDescription a.text b.text (extractNumbers a.text) (extractNumbers b.text),
             9/10⟩

/-- Fuelled splitting of a character list into maximal runs of word /
non-word characters (each step consumes at least one character, so fuel
equal to the input length computes the full segmentation). -/
def segmentizeFuel : ℕ → List Char → List (Bool × List Char)
  | 0, _ => []
  | _, [] => []
  | fuel + 1, c :: cs =>
    (isWordChar c, (c :: cs).takeWhile (fun x => isWordChar x == isWordChar c)) ::
      segmentizeFuel fuel ((c :: cs).dropWhile (fun x => isWordChar x == isWordChar c))

/-- Split a character list into maximal runs of word / non-word
characters, tagged with whether the run is of word characters. -/
def segmentize (l : List Char) : List (Bool × List Char) :=
  segmentizeFuel l.length l

/-- The maximal word-character runs of a string.  The regex
`\b(w1|…|wn)\b` matches a text exactly when one of the (all-word-char)
alternatives equals such a maximal run. -/
def wordRuns (s : String) : List String :=
  (segmentize s.data).filterMap (fun p => if p.1 then some (String.mk p.2) else none)

/-- `re.search(r'\b(w1|...|wn)\b', text, re.IGNORECASE)` for a list of
lower-case all-word-character alternatives. -/
def regexWordSearch (ws : List String) (text : String) : Bool :=
  ws.any (fun w => w ∈ wordRuns (pyLower text))

/-- Strong modals of `check_modal_mismatch`. -/
def modalsStrong : List String := ["must", "shall", "required", "mandatory", "obligatory"]

/-- Weak modals of `check_modal_mismatch`. -/
def modalsWeak : List String := ["may", "can", "optional", "permitted", "allowed"]

/-- `rule_checker.check_modal_mismatch`. -/
def checkModalMismatch (a b : Clause) : Option Violation :=
  if (regexWordSearch modalsStrong a.text && regexWordSearch modalsWeak b.text) ||
      (regexWordSearch modalsWeak a.text && regexWordSearch modalsStrong b.text) then
    if (pySplit a.text).length < 8 ∨ (pySplit b.text).length < 8 then none
    else if 11/20 < contentOverlap a.text b.text then
      some ⟨a, b, "modal", "medium", "Modal mismatch: mandatory vs optional", 3/4⟩
    else none
  else none

/-- Is a run of word characters of the shape `[A-Z][a-z]+`? -/
def capQual (run : List Char) : Bool :=
  match run with
  | [] => false
  | c :: rest => c.isUpper && !rest.isEmpty && rest.all (·.isLower)

/-- Assemble matches of `\b[A-Z][a-z]+(?:\s+[A-Z][a-z]+)*\b` from the
segment stream: maximal chains of qualifying runs joined by
whitespace-only separators. -/
def assembleCaps : Option (List Char) → List (Bool × List Char) → List String
  | none, [] => []
  | some acc, [] => [String.mk acc]
  | none, (w, run) :: rest =>
    if w && capQual run then assembleCaps (some run) rest else assembleCaps none rest
  | some acc, (w, run) :: rest =>
    if w then
      String.mk acc ::
        (if capQual run then assembleCaps (some run) rest else assembleCaps none rest)
    else
      match rest with
      | [] => [String.mk acc]
      | (w', run') :: rest' =>
        if w' && run.all (isSpaceChar ·) && capQual run' then
          assembleCaps (some (acc ++ run ++ run')) rest'
        else
          String.mk acc ::
            (if w' && capQual run' then assembleCaps (some run') rest'
             else assembleCaps none rest')

/-- `re.findall(r'\b[A-Z][a-z]+(?:\s+[A-Z][a-z]+)*\b', text)`. -/
def capEntities (s : String) : List String :=
  assembleCaps none (segmentize s.data)

/-- Authority terms of `check_authority_mismatch`. -/
def authorityWords : List String :=
  ["responsible", "authority", "department", "team", "manager", "director"]

/-- Python `repr` of a list of strings, as interpolated by the f-string
in the authority-mismatch description. -/
def pyListRepr (l : List String) : String :=
  "[" ++ pyJoin ", " (l.map (fun s => String.mk [sq] ++ s ++ String.mk [sq])) ++ "]"

/-- `rule_checker.check_authority_mismatch`. -/
def checkAuthorityMismatch (a b : Clause) : Option Violation :=
  if regexWordSearch authorityWords a.text && regexWordSearch authorityWords b.text then
    if (pySplit a.text).length < 8 ∨ (pySplit b.text).length < 8 then none
    else if capEntities a.text ≠ [] ∧ capEntities b.text ≠ [] ∧
        (capEntities a.text).toFinset ≠ (capEntities b.text).toFinset then
      if 11/20 < contentOverlap a.text b.text then
        some ⟨a, b, "authority", "medium",
              "Authority mismatch: " ++ pyListRepr (capEntities a.text) ++ " vs " ++
                pyListRepr (capEntities b.text), 7/10⟩
      else none
    else none
  else none

/-- Entity map of one clause: spaCy label to surface forms
(a Python dict, modelled as an association list). -/
def Ents : Type := List (String × List String)

instance : DecidableEq Ents := by
  unfold Ents
  infer_instance

/-- `ents.get(label, [])`. -/
def entsGet (e : Ents) (label : String) : List String :=
  ((e : List (String × List String)).lookup label).getD []

/-- Entity values of a clause for a label group, in extension order. -/
def groupVals (e : Ents) (labels : List String) : List String :=
  (labels.map (entsGet e)).flatten

/-- Case-folded value set of a label group (`{v.lower() for v in vals}`). -/
def groupSet (e : Ents) (labels : List String) : List String :=
  ((groupVals e labels).map pyLower).dedup

/-- `ner_service._check_label_conflict` (the violation it may append). -/
def checkLabelConflict (a b : Clause) (ea eb : Ents) (labels : List String)
    (ctype sev : String) (descFn : String → String → String) (conf : ℚ) : List Violation :=
  if groupVals ea labels = [] ∨ groupVals eb labels = [] then []
  else if (groupSet ea labels).all (· ∉ groupSet eb labels) then
    if 4 < (groupSet ea labels).length + (groupSet eb labels).length then []
    else [⟨a, b, ctype, sev,
          descFn (pyJoin ", " ((groupVals ea labels).take 3))
                 (pyJoin ", " ((groupVals eb labels).take 3)),
          conf⟩]
  else []

/-- `ner_service.check_entity_contradictions`. -/
def checkEntityContradictions (a b : Clause) (ea eb : Ents) : List Violation :=
  if ea = ([] : List (String × List String)) ∨ eb = ([] : List (String × List String)) then []
  else if (pySplit (pyLower a.text)).length < 8 ∨ (pySplit (pyLower b.text)).length < 8 then []
  else if contentSet stopRule a.text = [] ∨ contentSet stopRule b.text = [] then []
  else if (((contentSet stopRule a.text).filter (· ∈ contentSet stopRule b.text)).length : ℚ) /
        (max (contentSet stopRule a.text).length (contentSet stopRule b.text).length : ℚ)
        < 1/2 then []
  else
        checkLabelConflict a b ea eb ["DATE", "TIME"] "date" "high"
          (fun x y => "Date/time conflict: " ++ x ++ " vs " ++ y) (17/20) ++
        checkLabelConflict a b ea eb ["MONEY", "PERCENT"] "financial" "high"
          (fun x y => "Financial conflict: " ++ x ++ " vs " ++ y) (22/25) ++
        checkLabelConflict a b ea eb ["PERSON", "ORG"] "entity" "medium"
          (fun x y => "Entity conflict: " ++ x ++ " vs " ++ y) (3/4) ++
        checkLabelConflict a b ea eb ["GPE", "LOC"] "location" "medium"
          (fun x y => "Location conflict: " ++ x ++ " vs " ++ y) (39/50) ++
        checkLabelConflict a b ea eb ["QUANTITY", "CARDINAL"] "quantity" "medium"
          (fun x y => "Quantity conflict: " ++ x ++ " vs " ++ y) (4/5)

/-- All rule violations emitted for one ordered pair, in source order:
numeric, modal, authority, then the NER entity checks. -/
def violationsFor (em : List (ℕ × Ents)) (a b : Clause) : List Violation :=
  (checkNumericMismatch a b).toList ++ (checkModalMismatch a b).toList ++
    (checkAuthorityMismatch a b).toList ++
    (if em ≠ [] then
      let ea := (em.lookup a.id).getD []
      let eb := (em.lookup b.id).getD []
      if ea ≠ ([] : List (String × List String)) ∨ eb ≠ ([] : List (String × List String)) then
        checkEntityContradictions a b ea eb
      else []
    else [])

/-- The unordered pair sweep `for i, a in enumerate(clauses): for b in
clauses[i+1:]`. -/
def pairsOf : List Clause → List (Clause × Clause)
  | [] => []
  | a :: rest => rest.map (fun b => (a, b)) ++ pairsOf rest

/-- `rule_checker.check_contradictions_batch`. -/
def checkContradictionsBatch (clauses : List Clause) (em : List (ℕ × Ents)) : List Violation :=
  ((pairsOf clauses).map (fun p => violationsFor em p.1 p.2)).flatten

/-- A candidate pair sent to NLI: `(text_a, text_b, id_a, id_b)`. -/
structure NliPair where
  ta : String
  tb : String
  ia : ℕ
  ib : ℕ
deriving DecidableEq, Repr

/-- One row of `batch_nli_check` output. -/
structure NLIResult where
  clause_a_id : ℕ
  clause_b_id : ℕ
  contradiction_score : ℚ
  entailment_score : ℚ
  neutral_score : ℚ
deriving DecidableEq, Repr

/-- `nli_service.batch_nli_check`, with the cross-encoder plus softmax as
an oracle `model` giving the `(contradiction, entailment, neutral)`
probabilities of a text pair. -/
def batchNliCheck (model : String → String → ℚ × ℚ × ℚ) (pairs : List NliPair) :
    List NLIResult :=
  pairs.map (fun p =>
    ⟨p.ia, p.ib, (model p.ta p.tb).1, (model p.ta p.tb).2.1, (model p.ta p.tb).2.2⟩)

/-- Canonical unordered clause-pair key: `tuple(sorted([id_a, id_b]))`. -/
def pairKey (x y : ℕ) : ℕ × ℕ :=
  if x ≤ y then (x, y) else (y, x)

/-- The `_extract_best_span` helper of `_build_semantic_description`
(identical in both workers). -/
def extractBestSpan (originalText : String) (uniqueWords : List String) : String :=
  let origWords := pySplit originalText
  let clean := origWords.map (fun w => pyLower (stripChars descPunct w))
  let st := (clean.map (fun c => decide (c ∈ uniqueWords))).enum.foldl
    (fun (st : ℕ × ℕ × Option ℕ) p =>
      if p.2 then
        let c := st.2.2.getD p.1
        if st.2.1 - st.1 < p.1 - c + 1 then (c, p.1 + 1, some c) else (st.1, st.2.1, some c)
      else (st.1, st.2.1, none))
    (0, 0, none)
  if st.1 = st.2.1 then
    pyJoin " "
      (((origWords.zip clean).filterMap
        (fun q => if q.2 ∈ uniqueWords then some q.1 else none)).take 12)
  else
    let ctxStart := st.1 - 1
    let span := (origWords.drop ctxStart).take (st.2.1 - ctxStart)
    stripChars descPunct
      (pyJoin " " (if 12 < span.length then span.take 12 else span))

/-- The text-recovery loop at the top of `_build_semantic_description`. -/
def findPairTexts (caId cbId : ℕ) : List NliPair → Option (String × String)
  | [] => none
  | p :: rest =>
    if p.ia = caId ∧ p.ib = cbId then some (p.ta, p.tb)
    else if p.ia = cbId ∧ p.ib = caId then some (p.tb, p.ta)
    else findPairTexts caId cbId rest

/-- `_build_semantic_description`, shared verbatim by the two workers. -/
def buildSemanticDescription (caId cbId : ℕ) (nliPairs : List NliPair)
    (confidencePct : ℚ) : String :=
  let fallback := "Semantic conflict detected (confidence: " ++
    toString (rhe confidencePct) ++ "%)"
  match findPairTexts caId cbId nliPairs with
  | none => fallback
  | some (ta, tb) =>
    if ta = "" ∨ tb = "" then fallback
    else
      let setA := (((pySplit ta).map (fun w => pyLower (stripChars descPunct w))).filter
        (fun w => w ∉ stopDesc ∧ 2 < w.length)).dedup
      let setB := (((pySplit tb).map (fun w => pyLower (stripChars descPunct w))).filter
        (fun w => w ∉ stopDesc ∧ 2 < w.length)).dedup
      let spanA := extractBestSpan ta (setA.filter (· ∉ setB))
      let spanB := extractBestSpan tb (setB.filter (· ∉ setA))
      if spanA ≠ "" ∧ spanB ≠ "" then
        "Semantic conflict: " ++ String.mk [sq] ++ spanA ++ String.mk [sq] ++
          " vs " ++ String.mk [sq] ++ spanB ++ String.mk [sq]
      else fallback

/-- The keep-test of the 0.30 content-word-overlap pre-filter, as written
in both workers (drop only when both content sets are non-empty and the
overlap is below 0.30). -/
def preFilterKeep (ta tb : String) : Bool :=
  let wa := contentSet stopWorker ta
  let wb := contentSet stopWorker tb
  if wa ≠ [] ∧ wb ≠ [] then
    if ((wa.filter (· ∈ wb)).length : ℚ) / (max wa.length wb.length : ℚ) < 3/10 then false
    else true
  else true

/-- The single-document worker's pre-filter loop over `nli_pairs`. -/
def preFilterSingle (l : List NliPair) : List NliPair :=
  l.filter (fun p => preFilterKeep p.ta p.tb)

/-- The cross-document worker's pre-filter loop, which walks
`nli_pairs` and `pair_meta` together by index. -/
def preFilterCross (l : List (NliPair × ℕ × ℕ)) : List (NliPair × ℕ × ℕ) :=
  l.filter (fun q => preFilterKeep q.1.ta q.1.tb)

/-- A stored `Contradiction` row (single-document worker). -/
structure Contra where
  clause_a_id : ℕ
  clause_b_id : ℕ
  ctype : String
  severity : String
  description : String
  confidence : ℚ
deriving DecidableEq, Repr

/-- A stored `CrossContradiction` row (comparison worker). -/
structure CrossContra where
  clause_a_id : ℕ
  document_a_id : ℕ
  clause_b_id : ℕ
  document_b_id : ℕ
  ctype : String
  severity : String
  description : String
  confidence : ℚ
deriving DecidableEq, Repr

/-- `rule_map[pair_key] = violation` built by iteration (later entries
overwrite earlier ones for the same key). -/
def buildRuleMap (viols : List Violation) : ℕ × ℕ → Option Violation :=
  viols.foldl (fun m v k => if k = pairKey v.clause_a.id v.clause_b.id then some v else m k)
    (fun _ => none)

/-- `is_numeric_rule`: rule-backed and the rule's type is `numeric`. -/
def isNumericRule (rv : Option Violation) : Bool :=
  match rv with
  | some v => v.vtype == "numeric"
  | none => false

/-- The candidate pairs of the similarity stage, as NLI tuples. -/
def simToPairs (sim : List (Clause × Clause)) : List NliPair :=
  sim.map (fun q => ⟨q.1.text, q.2.text, q.1.id, q.2.id⟩)

/-- The candidate pairs of the rule stage, as NLI tuples. -/
def violToPairs (viols : List Violation) : List NliPair :=
  viols.map (fun v => ⟨v.clause_a.text, v.clause_b.text, v.clause_a.id, v.clause_b.id⟩)

/-- One step of the seen-key merge in the single-document worker. -/
def mergeStep (st : List (ℕ × ℕ) × List NliPair) (p : NliPair) :
    List (ℕ × ℕ) × List NliPair :=
  if pairKey p.ia p.ib ∈ st.1 then st else (pairKey p.ia p.ib :: st.1, st.2 ++ [p])

/-- The single-document worker's merge of similarity candidates and rule
violations into a de-duplicated `nli_pairs` list (similarity pairs first,
then rule violations; first emission of an unordered key wins). -/
def mergeCandidates (sim : List (Clause × Clause)) (viols : List Violation) : List NliPair :=
  ((simToPairs sim ++ violToPairs viols).foldl mergeStep ([], [])).2

/-- The single-document decision layer for one NLI result: the three
gates with numeric-rule bypass, then type, confidence, severity and
description assignment (`processing_worker.py`, storage loop body). -/
def decideSingle (rm : ℕ × ℕ → Option Violation) (nliPairs : List NliPair)
    (r : NLIResult) : Option Contra :=
  let rv := rm (pairKey r.clause_a_id r.clause_b_id)
  let minScore : ℚ := if rv.isSome then 1/2 else 3/4
  let isNum := isNumericRule rv
  if r.contradiction_score ≤ minScore ∧ isNum = false then none
  else if (r.contradiction_score ≤ r.entailment_score ∨
           r.contradiction_score ≤ r.neutral_score) ∧ isNum = false then none
  else if 1/2 < r.entailment_score ∧ isNum = false then none
  else
    let cConf : ℚ :=
      if isNum = true ∧ r.contradiction_score < 1/2 then
        ((rv.map (·.confidence)).getD r.contradiction_score)
      else r.contradiction_score
    let pct := pyRound1 (cConf * 100)
    some ⟨r.clause_a_id, r.clause_b_id,
      (match rv with | some v => v.vtype | none => "semantic"),
      if 90 ≤ pct then "high" else "medium",
      (match rv with
       | some v => v.description
       | none => buildSemanticDescription r.clause_a_id r.clause_b_id nliPairs pct),
      pct⟩

/-- The single-document storage loop over NLI results. -/
def storeSingle (rm : ℕ × ℕ → Option Violation) (nliPairs : List NliPair)
    (results : List NLIResult) : List Contra :=
  results.filterMap (decideSingle rm nliPairs)

/-- The cross-document decision layer for one NLI result with its
document attribution (`comparison_worker.py`, storage loop body without
the seen-pair dedup).  Gate 1 here uses a strict `<` rejection, i.e. a
score equal to the threshold passes. -/
def decideCross (rm : ℕ × ℕ → Option Violation) (nliPairs : List NliPair)
    (r : NLIResult) (da db : ℕ) : Option CrossContra :=
  let rv := rm (pairKey r.clause_a_id r.clause_b_id)
  let minScore : ℚ := if rv.isSome then 1/2 else 3/4
  let isNum := isNumericRule rv
  if r.contradiction_score < minScore ∧ isNum = false then none
  else if (r.contradiction_score ≤ r.entailment_score ∨
           r.contradiction_score ≤ r.neutral_score) ∧ isNum = false then none
  else if 1/2 < r.entailment_score ∧ isNum = false then none
  else
    let cConf : ℚ :=
      if isNum = true ∧ r.contradiction_score < 1/2 then
        ((rv.map (·.confidence)).getD r.contradiction_score)
      else r.contradiction_score
    let pct := pyRound1 (cConf * 100)
    some ⟨r.clause_a_id, da, r.clause_b_id, db,
      (match rv with | some v => v.vtype | none => "semantic"),
      if 90 ≤ pct then "high" else "medium",
      (match rv with
       | some v => v.description
       | none => buildSemanticDescription r.clause_a_id r.clause_b_id nliPairs pct),
      pct⟩

/-- The cross-document storage loop: gates, then the `seen_pairs`
de-duplication, then the row construction. -/
def storeCross (rm : ℕ × ℕ → Option Violation) (nliPairs : List NliPair) :
    List (NLIResult × ℕ × ℕ) → List (ℕ × ℕ) → List CrossContra
  | [], _ => []
  | (r, da, db) :: rest, seen =>
    match decideCross rm nliPairs r da db with
    | none => storeCross rm nliPairs rest seen
    | some cc =>
      if pairKey r.clause_a_id r.clause_b_id ∈ seen then storeCross rm nliPairs rest seen
      else cc :: storeCross rm nliPairs rest (pairKey r.clause_a_id r.clause_b_id :: seen)

/-- The terminal state of one `process_document` run that the claims
observe: document status, stage, progress and the stored contradictions. -/
structure DocRunResult where
  status : String
  processing_stage : String
  progress_percent : ℕ
  contradictions : List Contra
deriving DecidableEq, Repr

/-- The contradiction-producing part of `process_document`, from the
segmented clause texts to the terminal state.  External effects enter as
oracles: `simFn` is the numpy cosine-similarity candidate stage (only
invoked when more than one embedded clause exists, as in the source),
`nerFn` the spaCy entity extraction per clause text, `model` the NLI
cross-encoder probabilities.  Fresh clause UUIDs are modelled by list
positions. -/
def processDocumentRun (clauseTexts : List String)
    (simFn : List Clause → List (Clause × Clause))
    (nerFn : String → Ents)
    (model : String → String → ℚ × ℚ × ℚ) : DocRunResult :=
  let clauses := clauseTexts.enum.map (fun p => Clause.mk p.1 p.2)
  let entitiesMap : List (ℕ × Ents) := clauses.map (fun c => (c.id, nerFn c.text))
  let simPairs := if 1 < clauses.length then simFn clauses else []
  let viols := checkContradictionsBatch clauses entitiesMap
  let ruleMap := buildRuleMap viols
  let nliPairs := preFilterSingle (mergeCandidates simPairs viols)
  let stored :=
    if nliPairs ≠ [] then storeSingle ruleMap nliPairs (batchNliCheck model nliPairs)
    else []
  ⟨"completed", "completed", 100, stored⟩

/-- The `documents` ORM row, with exactly the columns of
`models/document.py` that carry state (note: there is no
`error_message` column). -/
structure Document where
  id : String
  name : String
  file_path : String
  status : String
  processing_stage : String
  progress_percent : ℕ
  analysis_start_time : Option String
  analysis_end_time : Option String
deriving DecidableEq, Repr

/-- The `comparison_sessions` ORM row (`models/comparison.py`), which
does have an `error_message` column. -/
structure ComparisonSession where
  id : String
  status : String
  processing_stage : String
  progress_percent : ℕ
  document_ids : String
  total_cross_contradictions : ℕ
  started_at : Option String
  completed_at : Option String
  error_message : Option String
deriving DecidableEq, Repr

/-- The `except` branch of `process_document`: the document is marked
`failed` (status only — the model has no error-message column) and the
exception is re-raised. -/
def processDocumentOnError (doc : Document) (e : String) : Document × Except String Unit :=
  ({ doc with status := "failed" }, Except.error e)

/-- The `except` branch of `process_multi_documents`: the session is
marked `failed`, `error_message = str(e)[:500]`, and the exception is
re-raised. -/
def processMultiOnError (s : ComparisonSession) (e : String) :
    ComparisonSession × Except String Unit :=
  ({ s with status := "failed", error_message := some (e.take 500) }, Except.error e)

/-- Rest of the stream after `\|\s*` and the digit run, in
`_normalise_line`'s first substitution. -/
def pipeRest (cs : List Char) : List Char :=
  (cs.dropWhile (isSpaceChar ·)).dropWhile (·.isDigit)

/-- Digit run after `\|\s*` in `_normalise_line`'s first substitution. -/
def pipeDigits (cs : List Char) : List Char :=
  (cs.dropWhile (isSpaceChar ·)).takeWhile (·.isDigit)

/-- Does `\s*\d{1,4}\s` match right after a `|`? -/
def hasPipeMatch (cs : List Char) : Bool :=
  1 ≤ (pipeDigits cs).length && (pipeDigits cs).length ≤ 4 &&
    (match pipeRest cs with
     | c2 :: _ => isSpaceChar c2
     | [] => false)

/-- Stream position after a successful `\|\s*\d{1,4}\s` match (the
trailing whitespace character is part of the match). -/
def afterPipeMatch (cs : List Char) : List Char :=
  (pipeRest cs).drop 1

/-- Fuelled scanner for `re.sub(r'\|\s*\d{1,4}\s', '| # ', s)`; every
step consumes at least one character, so any fuel of at least the input
length computes the full substitution (structural recursion keeps the
function kernel-reducible). -/
def sub1Fuel : ℕ → List Char → List Char
  | 0, l => l
  | _, [] => []
  | fuel + 1, c :: cs =>
    if c = '|' && hasPipeMatch cs then
      '|' :: ' ' :: '#' :: ' ' :: sub1Fuel fuel (afterPipeMatch cs)
    else c :: sub1Fuel fuel cs

/-- `re.sub(r'\|\s*\d{1,4}\s', '| # ', s)`: left-to-right non-overlapping
replacement. -/
def sub1 (l : List Char) : List Char :=
  sub1Fuel l.length l

/-- Does `\d{1,4}(?:\s|$)` match at the head of the stream? -/
def hasNumMatch (cs : List Char) : Bool :=
  1 ≤ (cs.takeWhile (·.isDigit)).length && (cs.takeWhile (·.isDigit)).length ≤ 4 &&
    (match cs.dropWhile (·.isDigit) with
     | c2 :: _ => isSpaceChar c2
     | [] => true)

/-- Stream position after a `\d{1,4}(?:\s|$)` match (the trailing
whitespace character, when present, is consumed). -/
def afterNumMatch (cs : List Char) : List Char :=
  (cs.dropWhile (·.isDigit)).drop 1

/-- Fuelled scan loop of `re.sub(r'(?:^|\s)\d{1,4}(?:\s|$)', ' # ', s)`
at a non-initial position: a match must be triggered by a whitespace
character. -/
def sub2MainFuel : ℕ → List Char → List Char
  | 0, l => l
  | _, [] => []
  | fuel + 1, c :: cs =>
    if isSpaceChar c && hasNumMatch cs then
      ' ' :: '#' :: ' ' :: sub2MainFuel fuel (afterNumMatch cs)
    else c :: sub2MainFuel fuel cs

/-- The scan loop of the second substitution away from the start of the
string. -/
def sub2Main (l : List Char) : List Char :=
  sub2MainFuel l.length l

/-- `re.sub(r'(?:^|\s)\d{1,4}(?:\s|$)', ' # ', s)`, including the
start-of-string alternative of the leading group. -/
def sub2 (l : List Char) : List Char :=
  if hasNumMatch l then ' ' :: '#' :: ' ' :: sub2Main (afterNumMatch l)
  else l.takeWhile (·.isDigit) ++ sub2Main (l.dropWhile (·.isDigit))

/-- `text_extractor._normalise_line`. -/
def normaliseLine (line : String) : String :=
  pyJoin " " (pySplit (String.mk (sub2 (sub1 (pyStrip line).data))))

/-- One `counts[s] += 1` step of a `collections.Counter`. -/
def counterAdd : List (String × ℕ) → String → List (String × ℕ)
  | [], s => [(s, 1)]
  | (k, n) :: rest, s =>
    if k = s then (k, n + 1) :: rest else (k, n) :: counterAdd rest s

/-- The `Counter` built over a list of strings. -/
def buildCounter (l : List String) : List (String × ℕ) :=
  l.foldl counterAdd []

/-- Count lookup in a `Counter` (missing keys give 0). -/
def lookupCount (c : List (String × ℕ)) (s : String) : ℕ :=
  match c.find? (fun p => decide (p.1 = s)) with
  | some p => p.2
  | none => 0

/-- `max(2, int(num_pages * 0.4))`.  The float product `n * 0.4` agrees
with exact arithmetic for the page counts the pipeline sees, so the
threshold is the integer floor of `2n/5`, clamped below by 2. -/
def pageThreshold (n : ℕ) : ℕ :=
  max 2 ((2 * n) / 5)

/-- The normalised forms counted by `_clean_pdf_text` (one entry per
non-blank line). -/
def normList (lines : List String) : List String :=
  lines.filterMap (fun l => if pyStrip l ≠ "" then some (normaliseLine (pyStrip l)) else none)

/-- The `repeated_norms` set comprehension of `_clean_pdf_text`. -/
def repeatedNorms (lines : List String) (n : ℕ) : List String :=
  (buildCounter (normList lines)).filterMap
    (fun p => if pageThreshold n ≤ p.2 ∧ p.1.length < 140 then some p.1 else none)

/-- The dash characters accepted by the standalone-page-number pattern. -/
def dashChars : List Char := ['-', Char.ofNat 0x2013, Char.ofNat 0x2014]

/-- Optionally consume `page\s+` (case-insensitive). -/
def matchPagePrefix (l : List Char) : List Char :=
  match l with
  | p :: a :: g :: e :: rest =>
    if p.toLower = 'p' ∧ a.toLower = 'a' ∧ g.toLower = 'g' ∧ e.toLower = 'e' ∧
        (match rest with
         | c :: _ => isSpaceChar c
         | [] => false) = true then
      rest.dropWhile (isSpaceChar ·)
    else l
  | _ => l

/-- `re.match(r'^\s*[-–—]?\s*(?:page\s+)?\d{1,4}\s*[-–—]?\s*$', line,
re.IGNORECASE)`: the standalone page-number test of `_clean_pdf_text`. -/
def isStandalonePage (line : String) : Bool :=
  let l0 := line.data.dropWhile (isSpaceChar ·)
  let l1 := match l0 with
    | c :: r => if c ∈ dashChars then r else l0
    | [] => l0
  let l2 := matchPagePrefix (l1.dropWhile (isSpaceChar ·))
  let ds := l2.takeWhile (·.isDigit)
  let r := l2.dropWhile (·.isDigit)
  let r1 := r.dropWhile (isSpaceChar ·)
  let r2 := match r1 with
    | c :: t => if c ∈ dashChars then t else r1
    | [] => r1
  1 ≤ ds.length && ds.length ≤ 4 && (r2.dropWhile (isSpaceChar ·)).isEmpty

/-- `text_extractor._clean_pdf_text`. -/
def cleanPdfText (rawText : String) (numPages : ℕ) : String :=
  let lines := pySplitChar (Char.ofNat 10) rawText
  if numPages < 2 ∨ lines.length < 10 then rawText
  else
    pyJoin "\n" (lines.filter (fun line =>
      if pyStrip line ≠ "" ∧ normaliseLine (pyStrip line) ∈ repeatedNorms lines numPages then
        false
      else if isStandalonePage line then false
      else true))

/-- `text_extractor.extract_text_from_pdf`, with PyPDF2 page extraction
abstracted to the list of per-page texts (`none` models the raised
`TextExtractionError` when no text is produced). -/
def extractTextFromPdfPages (pageTexts : List String) : Option String :=
  let raw := pyJoin "\n\n" (pageTexts.filter (fun t => t ≠ ""))
  if pyStrip raw = "" then none
  else some (pyStrip (cleanPdfText raw pageTexts.length))

theorem sortStr_eq_iff (l1 l2 : List String) :
    sortStr l1 = sortStr l2 ↔ (l1 : Multiset String) = (l2 : Multiset String) := by
  constructor
  · intro h
    rw [Multiset.coe_eq_coe]
    have p1 := List.mergeSort_perm l1 (fun a b => decide (a ≤ b))
    have p2 := List.mergeSort_perm l2 (fun a b => decide (a ≤ b))
    unfold sortStr at h
    rw [← h] at p2
    exact p1.symm.trans p2
  · intro h
    rw [Multiset.coe_eq_coe] at h
    unfold sortStr
    exact List.eq_of_perm_of_sorted
      ((List.mergeSort_perm l1 _).trans (h.trans (List.mergeSort_perm l2 _).symm))
      (List.sorted_mergeSort' l1) (List.sorted_mergeSort' l2)

theorem cnm_isSome_iff (a b : Clause) :
    (checkNumericMismatch a b).isSome ↔
      ¬((pySplit a.text).length < 8 ∨ (pySplit b.text).length < 8) ∧
      ¬(extractNumbers a.text = [] ∨ extractNumbers b.text = []) ∧
      sortStr (extractNumbers a.text) ≠ sortStr (extractNumbers b.text) ∧
      ¬(contentOverlap a.text b.text < 2/5) := by
  unfold checkNumericMismatch
  by_cases c1 : (pySplit a.text).length < 8 ∨ (pySplit b.text).length < 8
  · simp [c1]
  · by_cases c2 : extractNumbers a.text = [] ∨ extractNumbers b.text = []
    · simp [c1, c2]
    · by_cases c3 : sortStr (extractNumbers a.text) = sortStr (extractNumbers b.text)
      · simp [c1, c2, c3]
      · by_cases c4 : contentOverlap a.text b.text < 2/5
        · simp [c1, c2, c3, c4]
        · simp [c1, c2, c3, c4]

/-- C6: the numeric-mismatch rule fires exactly when both clauses have at
least 8 whitespace tokens, both sides extract a non-empty number list,
the number multisets differ, and the content-word overlap is at least
0.40; the emitted violation carries type `numeric`, severity `high` and
confidence 0.9. -/
theorem claim_C6_numeric_rule (a b : Clause) :
    ((checkNumericMismatch a b).isSome ↔
      (8 ≤ (pySplit a.text).length ∧ 8 ≤ (pySplit b.text).length ∧
       extractNumbers a.text ≠ [] ∧ extractNumbers b.text ≠ [] ∧
       (extractNumbers a.text : Multiset String) ≠ (extractNumbers b.text : Multiset String) ∧
       2/5 ≤ contentOverlap a.text b.text)) ∧
    (∀ v, checkNumericMismatch a b = some v →
      v.vtype = "numeric" ∧ v.severity = "high" ∧ v.confidence = 9/10) := by
  constructor
  · rw [cnm_isSome_iff]
    constructor
    · rintro ⟨n1, n2, n3, n4⟩
      push_neg at n1 n2
      exact ⟨n1.1, n1.2, n2.1, n2.2,
        fun hm => n3 ((sortStr_eq_iff _ _).mpr hm), not_lt.mp n4⟩
    · rintro ⟨g1, g2, g3, g4, g5, g6⟩
      refine ⟨by omega, by tauto, fun hs => g5 ((sortStr_eq_iff _ _).mp hs), not_lt.mpr g6⟩
  · intro v hv
    unfold checkNumericMismatch at hv
    split_ifs at hv
    have := Option.some_injective _ hv
    subst this
    exact ⟨rfl, rfl, rfl⟩

/-- The signature of a violation that C8 compares across argument
orders: type, severity and confidence (clause references and
description operands are allowed to swap). -/
def vSig (v : Violation) : String × String × ℚ :=
  (v.vtype, v.severity, v.confidence)

theorem numericMismatch_sig_comm (a b : Clause) :
    (checkNumericMismatch a b).map vSig = (checkNumericMismatch b a).map vSig := by
  unfold checkNumericMismatch
  by_cases c1 : (pySplit a.text).length < 8 ∨ (pySplit b.text).length < 8
  · rw [if_pos c1, if_pos (Or.symm c1)]
  · have c1' : ¬((pySplit b.text).length < 8 ∨ (pySplit a.text).length < 8) :=
      fun h => c1 (Or.symm h)
    rw [if_neg c1, if_neg c1']
    by_cases c2 : extractNumbers a.text = [] ∨ extractNumbers b.text = []
    · rw [if_pos c2, if_pos (Or.symm c2)]
    · have c2' : ¬(extractNumbers b.text = [] ∨ extractNumbers a.text = []) :=
        fun h => c2 (Or.symm h)
      rw [if_neg c2, if_neg c2']
      by_cases c3 : sortStr (extractNumbers a.text) = sortStr (extractNumbers b.text)
      · rw [if_pos c3, if_pos c3.symm]
      · have c3' : ¬(sortStr (extractNumbers b.text) = sortStr (extractNumbers a.text)) :=
          fun h => c3 h.symm
        rw [if_neg c3, if_neg c3']
        by_cases c4 : contentOverlap a.text b.text < 2/5
        · have c4' : contentOverlap b.text a.text < 2/5 := by
            rwa [contentOverlap_comm b.text a.text]
          rw [if_pos c4, if_pos c4']
        · have c4' : ¬(contentOverlap b.text a.text < 2/5) := by
            rwa [contentOverlap_comm b.text a.text]
          rw [if_neg c4, if_neg c4']
          rfl

theorem modalMismatch_sig_comm (a b : Clause) :
    (checkModalMismatch a b).map vSig = (checkModalMismatch b a).map vSig := by
  unfold checkModalMismatch
  have hb : ∀ x y z w : Bool, (x && y || z && w) = (w && z || y && x) := by decide
  rw [hb (regexWordSearch modalsStrong b.text) (regexWordSearch modalsWeak a.text)
    (regexWordSearch modalsWeak b.text) (regexWordSearch modalsStrong a.text)]
  by_cases c0 : (regexWordSearch modalsStrong a.text && regexWordSearch modalsWeak b.text ||
      regexWordSearch modalsWeak a.text && regexWordSearch modalsStrong b.text) = true
  · rw [if_pos c0, if_pos c0]
    by_cases c1 : (pySplit a.text).length < 8 ∨ (pySplit b.text).length < 8
    · rw [if_pos c1, if_pos (Or.symm c1)]
    · have c1' : ¬((pySplit b.text).length < 8 ∨ (pySplit a.text).length < 8) :=
        fun h => c1 (Or.symm h)
      rw [if_neg c1, if_neg c1']
      by_cases c2 : 11/20 < contentOverlap a.text b.text
      · have c2' : 11/20 < contentOverlap b.text a.text := by
          rwa [contentOverlap_comm b.text a.text]
        rw [if_pos c2, if_pos c2']
        rfl
      · have c2' : ¬(11/20 < contentOverlap b.text a.text) := by
          rwa [contentOverlap_comm b.text a.text]
        rw [if_neg c2, if_neg c2']
  · rw [if_neg c0, if_neg c0]

theorem authorityMismatch_sig_comm (a b : Clause) :
    (checkAuthorityMismatch a b).map vSig = (checkAuthorityMismatch b a).map vSig := by
  unfold checkAuthorityMismatch
  rw [Bool.and_comm (regexWordSearch authorityWords b.text) (regexWordSearch authorityWords a.text)]
  by_cases c0 : (regexWordSearch authorityWords a.text &&
      regexWordSearch authorityWords b.text) = true
  · rw [if_pos c0, if_pos c0]
    by_cases c1 : (pySplit a.text).length < 8 ∨ (pySplit b.text).length < 8
    · rw [if_pos c1, if_pos (Or.symm c1)]
    · have c1' : ¬((pySplit b.text).length < 8 ∨ (pySplit a.text).length < 8) :=
        fun h => c1 (Or.symm h)
      rw [if_neg c1, if_neg c1']
      by_cases c2 : capEntities a.text ≠ [] ∧ capEntities b.text ≠ [] ∧
          (capEntities a.text).toFinset ≠ (capEntities b.text).toFinset
      · have c2' : capEntities b.text ≠ [] ∧ capEntities a.text ≠ [] ∧
            (capEntities b.text).toFinset ≠ (capEntities a.text).toFinset :=
          ⟨c2.2.1, c2.1, fun h => c2.2.2 h.symm⟩
        rw [if_pos c2, if_pos c2']
        by_cases c3 : 11/20 < contentOverlap a.text b.text
        · have c3' : 11/20 < contentOverlap b.text a.text := by
            rwa [contentOverlap_comm b.text a.text]
          rw [if_pos c3, if_pos c3']
          rfl
        · have c3' : ¬(11/20 < contentOverlap b.text a.text) := by
            rwa [contentOverlap_comm b.text a.text]
          rw [if_neg c3, if_neg c3']
      · have c2' : ¬(capEntities b.text ≠ [] ∧ capEntities a.text ≠ [] ∧
            (capEntities b.text).toFinset ≠ (capEntities a.text).toFinset) :=
          fun h => c2 ⟨h.2.1, h.1, fun e => h.2.2 e.symm⟩
        rw [if_neg c2, if_neg c2']
  · rw [if_neg c0, if_neg c0]

theorem all_notMem_comm (x y : List String) :
    (x.all (· ∉ y)) = (y.all (· ∉ x)) := by
  rw [Bool.eq_iff_iff]
  simp only [List.all_eq_true, decide_eq_true_eq]
  constructor
  · intro h s hs hm
    exact h s hm hs
  · intro h s hs hm
    exact h s hm hs

theorem labelConflict_sig_comm (a b : Clause) (ea eb : Ents) (labels : List String)
    (ctype sev : String) (f g : String → String → String) (conf : ℚ) :
    (checkLabelConflict a b ea eb labels ctype sev f conf).map vSig =
      (checkLabelConflict b a eb ea labels ctype sev g conf).map vSig := by
  unfold checkLabelConflict
  rw [all_notMem_comm (groupSet eb labels) (groupSet ea labels)]
  by_cases c1 : groupVals ea labels = [] ∨ groupVals eb labels = []
  · rw [if_pos c1, if_pos (Or.symm c1)]
  · have c1' : ¬(groupVals eb labels = [] ∨ groupVals ea labels = []) :=
      fun h => c1 (Or.symm h)
    rw [if_neg c1, if_neg c1']
    by_cases c2 : ((groupSet ea labels).all (· ∉ groupSet eb labels)) = true
    · rw [if_pos c2, if_pos c2]
      by_cases c3 : 4 < (groupSet ea labels).length + (groupSet eb labels).length
      · have c3' : 4 < (groupSet eb labels).length + (groupSet ea labels).length := by omega
        rw [if_pos c3, if_pos c3']
      · have c3' : ¬(4 < (groupSet eb labels).length + (groupSet ea labels).length) := by omega
        rw [if_neg c3, if_neg c3']
        rfl
    · rw [if_neg c2, if_neg c2]

theorem entityContradictions_sig_comm (a b : Clause) (ea eb : Ents) :
    (checkEntityContradictions a b ea eb).map vSig =
      (checkEntityContradictions b a eb ea).map vSig := by
  unfold checkEntityContradictions
  have hlen : (((contentSet stopRule b.text).filter
      (· ∈ contentSet stopRule a.text)).length : ℚ) /
        (max (contentSet stopRule b.text).length (contentSet stopRule a.text).length : ℚ) =
      (((contentSet stopRule a.text).filter (· ∈ contentSet stopRule b.text)).length : ℚ) /
        (max (contentSet stopRule a.text).length (contentSet stopRule b.text).length : ℚ) := by
    rw [filterMem_length_comm (contentSet_nodup stopRule b.text)
      (contentSet_nodup stopRule a.text)]
    rw [max_comm (((contentSet stopRule b.text).length : ℚ)) (((contentSet stopRule a.text).length : ℚ))]
  rw [hlen]
  by_cases c0 : ea = ([] : List (String × List String)) ∨ eb = ([] : List (String × List String))
  · rw [if_pos c0, if_pos (Or.symm c0)]
  · have c0' : ¬(eb = ([] : List (String × List String)) ∨
        ea = ([] : List (String × List String))) := fun h => c0 (Or.symm h)
    rw [if_neg c0, if_neg c0']
    by_cases c1 : (pySplit (pyLower a.text)).length < 8 ∨ (pySplit (pyLower b.text)).length < 8
    · rw [if_pos c1, if_pos (Or.symm c1)]
    · have c1' : ¬((pySplit (pyLower b.text)).length < 8 ∨ (pySplit (pyLower a.text)).length < 8) :=
        fun h => c1 (Or.symm h)
      rw [if_neg c1, if_neg c1']
      by_cases c2 : contentSet stopRule a.text = [] ∨ contentSet stopRule b.text = []
      · rw [if_pos c2, if_pos (Or.symm c2)]
      · have c2' : ¬(contentSet stopRule b.text = [] ∨ contentSet stopRule a.text = []) :=
          fun h => c2 (Or.symm h)
        rw [if_neg c2, if_neg c2']
        by_cases c3 : (((contentSet stopRule a.text).filter
            (· ∈ contentSet stopRule b.text)).length : ℚ) /
              (max (contentSet stopRule a.text).length (contentSet stopRule b.text).length : ℚ)
              < 1/2
        · rw [if_pos c3, if_pos c3]
        · rw [if_neg c3, if_neg c3]
          simp only [List.map_append]
          rw [labelConflict_sig_comm a b ea eb ["DATE", "TIME"] "date" "high"
              (fun x y => "Date/time conflict: " ++ x ++ " vs " ++ y)
              (fun x y => "Date/time conflict: " ++ x ++ " vs " ++ y),
            labelConflict_sig_comm a b ea eb ["MONEY", "PERCENT"] "financial" "high"
              (fun x y => "Financial conflict: " ++ x ++ " vs " ++ y)
              (fun x y => "Financial conflict: " ++ x ++ " vs " ++ y),
            labelConflict_sig_comm a b ea eb ["PERSON", "ORG"] "entity" "medium"
              (fun x y => "Entity conflict: " ++ x ++ " vs " ++ y)
              (fun x y => "Entity conflict: " ++ x ++ " vs " ++ y),
            labelConflict_sig_comm a b ea eb ["GPE", "LOC"] "location" "medium"
              (fun x y => "Location conflict: " ++ x ++ " vs " ++ y)
              (fun x y => "Location conflict: " ++ x ++ " vs " ++ y),
            labelConflict_sig_comm a b ea eb ["QUANTITY", "CARDINAL"] "quantity" "medium"
              (fun x y => "Quantity conflict: " ++ x ++ " vs " ++ y)
              (fun x y => "Quantity conflict: " ++ x ++ " vs " ++ y)]

theorem decideSingle_numeric_eq (rm : ℕ × ℕ → Option Violation) (np : List NliPair)
    (r : NLIResult) (v : Violation)
    (hv : rm (pairKey r.clause_a_id r.clause_b_id) = some v) (ht : v.vtype = "numeric") :
    decideSingle rm np r = some ⟨r.clause_a_id, r.clause_b_id, v.vtype,
      (if 90 ≤ pyRound1 ((if r.contradiction_score < 1/2 then v.confidence
          else r.contradiction_score) * 100) then "high" else "medium"),
      v.description,
      pyRound1 ((if r.contradiction_score < 1/2 then v.confidence
          else r.contradiction_score) * 100)⟩ := by
  have hnum : isNumericRule (some v) = true := by
    simp [isNumericRule, ht]
  simp only [decideSingle, hv, hnum, Bool.true_eq_false, and_false, if_false]
  by_cases hc : r.contradiction_score < 1/2
  · simp [hc]
  · simp [hc]

theorem decideCross_numeric_eq (rm : ℕ × ℕ → Option Violation) (np : List NliPair)
    (r : NLIResult) (v : Violation) (da db : ℕ)
    (hv : rm (pairKey r.clause_a_id r.clause_b_id) = some v) (ht : v.vtype = "numeric") :
    decideCross rm np r da db = some ⟨r.clause_a_id, da, r.clause_b_id, db, v.vtype,
      (if 90 ≤ pyRound1 ((if r.contradiction_score < 1/2 then v.confidence
          else r.contradiction_score) * 100) then "high" else "medium"),
      v.description,
      pyRound1 ((if r.contradiction_score < 1/2 then v.confidence
          else r.contradiction_score) * 100)⟩ := by
  have hnum : isNumericRule (some v) = true := by
    simp [isNumericRule, ht]
  simp only [decideCross, hv, hnum, Bool.true_eq_false, and_false, if_false]
  by_cases hc : r.contradiction_score < 1/2
  · simp [hc]
  · simp [hc]

theorem rhe_intCast (n : ℤ) : rhe (n : ℚ) = n := by
  simp [rhe, Int.floor_intCast]

theorem pyRound1_nine_tenths : pyRound1 ((9:ℚ)/10 * 100) = 90 := by
  unfold pyRound1
  rw [show ((9:ℚ)/10 * 100) * 10 = ((900:ℤ):ℚ) by norm_num, rhe_intCast]
  norm_num

/-- C1: in both decision layers a candidate pair backed by a numeric C5
violation bypasses all three NLI gates and is always turned into a
stored contradiction, whatever its contradiction, entailment and neutral
probabilities are; its stored confidence is 90.0 (the rule confidence
0.9 scaled to percent) when `p < 0.50`, and `round(p * 100, 1)`
otherwise. -/
theorem claim_C1_numeric_bypass (rm : ℕ × ℕ → Option Violation) (np : List NliPair)
    (r : NLIResult) (v : Violation) (da db : ℕ)
    (hv : rm (pairKey r.clause_a_id r.clause_b_id) = some v)
    (ht : v.vtype = "numeric") (hconf : v.confidence = 9/10) :
    (decideSingle rm np r).isSome = true ∧
    (decideSingle rm np r).map (·.confidence) =
      some (if r.contradiction_score < 1/2 then 90
            else pyRound1 (r.contradiction_score * 100)) ∧
    (decideCross rm np r da db).isSome = true ∧
    (decideCross rm np r da db).map (·.confidence) =
      some (if r.contradiction_score < 1/2 then 90
            else pyRound1 (r.contradiction_score * 100)) := by
  have h90 : pyRound1 ((9:ℚ)/10 * 100) = 90 := pyRound1_nine_tenths
  rw [decideSingle_numeric_eq rm np r v hv ht, decideCross_numeric_eq rm np r v da db hv ht]
  refine ⟨rfl, ?_, rfl, ?_⟩ <;>
  · by_cases hc : r.contradiction_score < 1/2
    · rw [if_pos hc, if_pos hc, hconf, h90]
      rfl
    · rw [if_neg hc, if_neg hc]
      rfl

theorem decideSingle_none_of_le (rm : ℕ × ℕ → Option Violation) (np : List NliPair)
    (r : NLIResult)
    (hnum : isNumericRule (rm (pairKey r.clause_a_id r.clause_b_id)) = false)
    (h : r.contradiction_score ≤
      (if (rm (pairKey r.clause_a_id r.clause_b_id)).isSome then (1:ℚ)/2 else 3/4)) :
    decideSingle rm np r = none := by
  simp only [decideSingle]
  rw [if_pos ⟨h, hnum⟩]

theorem decideCross_none_of_lt (rm : ℕ × ℕ → Option Violation) (np : List NliPair)
    (r : NLIResult) (da db : ℕ)
    (hnum : isNumericRule (rm (pairKey r.clause_a_id r.clause_b_id)) = false)
    (h : r.contradiction_score <
      (if (rm (pairKey r.clause_a_id r.clause_b_id)).isSome then (1:ℚ)/2 else 3/4)) :
    decideCross rm np r da db = none := by
  simp only [decideCross]
  rw [if_pos ⟨h, hnum⟩]

/-- C3 (amended): for a candidate pair that is not backed by a numeric
rule, the two workers apply gate 1 with different strictness.  The
single-document worker stores the pair only if its contradiction
probability strictly exceeds the threshold (0.50 when rule-backed, 0.75
otherwise) and rejects it at equality; the cross-document worker rejects
only probabilities strictly below the threshold, so a probability equal
to the threshold passes gate 1 there. -/
theorem claim_C3_gate1_thresholds (rm : ℕ × ℕ → Option Violation) (np : List NliPair)
    (r : NLIResult) (da db : ℕ)
    (hnum : isNumericRule (rm (pairKey r.clause_a_id r.clause_b_id)) = false) :
    (r.contradiction_score ≤
        (if (rm (pairKey r.clause_a_id r.clause_b_id)).isSome then (1:ℚ)/2 else 3/4) →
      decideSingle rm np r = none) ∧
    ((decideSingle rm np r).isSome = true →
      (if (rm (pairKey r.clause_a_id r.clause_b_id)).isSome then (1:ℚ)/2 else 3/4) <
        r.contradiction_score) ∧
    (r.contradiction_score <
        (if (rm (pairKey r.clause_a_id r.clause_b_id)).isSome then (1:ℚ)/2 else 3/4) →
      decideCross rm np r da db = none) ∧
    ((decideCross rm np r da db).isSome = true →
      (if (rm (pairKey r.clause_a_id r.clause_b_id)).isSome then (1:ℚ)/2 else 3/4) ≤
        r.contradiction_score) := by
  refine ⟨decideSingle_none_of_le rm np r hnum, ?_, decideCross_none_of_lt rm np r da db hnum, ?_⟩
  · intro hs
    by_contra hlt
    push_neg at hlt
    rw [decideSingle_none_of_le rm np r hnum hlt] at hs
    exact absurd hs (by simp)
  · intro hs
    by_contra hlt
    push_neg at hlt
    rw [decideCross_none_of_lt rm np r da db hnum hlt] at hs
    exact absurd hs (by simp)

/-- C3 counterexample: in the cross-document worker a pair that is not
rule-backed and whose contradiction probability equals the 0.75
threshold exactly is stored (it passes gate 1), contradicting the claim
that equality is rejected in both workers. -/
theorem claim_C3_counterexample :
    (decideCross (fun _ => none) []
      ⟨0, 1, 3/4, 1/10, 3/20⟩ 0 1).isSome = true := by
  simp only [decideCross, isNumericRule]
  norm_num

theorem pyRound1_le_100 {c : ℚ} (h : c ≤ 1) : pyRound1 (c * 100) ≤ 100 := by
  unfold pyRound1
  have h1 : c * 100 * 10 ≤ ((1000:ℤ):ℚ) := by
    push_cast
    linarith
  have h2 := rhe_le_of_le h1
  have h3 : ((rhe (c * 100 * 10)):ℚ) ≤ 1000 := by exact_mod_cast h2
  rw [div_le_iff₀ (by norm_num : (0:ℚ) < 10)]
  linarith

theorem le_pyRound1_of_half_le {c : ℚ} (h : 1/2 ≤ c) : 50 ≤ pyRound1 (c * 100) := by
  unfold pyRound1
  have h1 : ((500:ℤ):ℚ) ≤ c * 100 * 10 := by
    push_cast
    linarith
  have h2 := le_rhe_of_le h1
  have h3 : (500:ℚ) ≤ ((rhe (c * 100 * 10)):ℚ) := by exact_mod_cast h2
  rw [le_div_iff₀ (by norm_num : (0:ℚ) < 10)]
  linarith

/-- The softmax contract of the NLI oracle: three non-negative
probabilities summing to one. -/
def probTriple (r : NLIResult) : Prop :=
  0 ≤ r.contradiction_score ∧ 0 ≤ r.entailment_score ∧ 0 ≤ r.neutral_score ∧
    r.contradiction_score + r.entailment_score + r.neutral_score = 1

/-- The stored-row invariant that C2 asserts about severity and
confidence. -/
def severityConfOk (severity : String) (confidence : ℚ) : Prop :=
  (severity = "high" ↔ 90 ≤ confidence) ∧
    (severity = "high" ∨ severity = "medium") ∧
    50 ≤ confidence ∧ confidence ≤ 100

theorem severityConfOk_of_pct {pct : ℚ} (hlo : 50 ≤ pct) (hhi : pct ≤ 100) :
    severityConfOk (if 90 ≤ pct then "high" else "medium") pct := by
  by_cases h90 : 90 ≤ pct
  · rw [if_pos h90]
    exact ⟨⟨fun _ => h90, fun _ => rfl⟩, Or.inl rfl, hlo, hhi⟩
  · rw [if_neg h90]
    refine ⟨⟨fun habs => absurd habs (by decide), fun hp => absurd hp h90⟩, Or.inr rfl, hlo, hhi⟩

theorem ite_chain3_some {α : Type} {p q s : Prop} [Decidable p] [Decidable q] [Decidable s]
    {x : Option α} {v : α}
    (h : (if p then none else if q then none else if s then none else x) = some v) :
    x = some v := by
  by_cases hp : p
  · rw [if_pos hp] at h
    exact Option.noConfusion h
  · rw [if_neg hp] at h
    by_cases hq : q
    · rw [if_pos hq] at h
      exact Option.noConfusion h
    · rw [if_neg hq] at h
      by_cases hs : s
      · rw [if_pos hs] at h
        exact Option.noConfusion h
      · rwa [if_neg hs] at h

theorem decideSingle_bounds (rm : ℕ × ℕ → Option Violation) (np : List NliPair)
    (r : NLIResult) (c : Contra) (hp : probTriple r)
    (hnum : ∀ v, rm (pairKey r.clause_a_id r.clause_b_id) = some v →
      v.vtype = "numeric" → v.confidence = 9/10)
    (hc : decideSingle rm np r = some c) :
    severityConfOk c.severity c.confidence := by
  obtain ⟨hc0, he0, hn0, hsum⟩ := hp
  have hc1 : r.contradiction_score ≤ 1 := by linarith
  by_cases hn : isNumericRule (rm (pairKey r.clause_a_id r.clause_b_id)) = true
  · obtain ⟨v, hv⟩ : ∃ v, rm (pairKey r.clause_a_id r.clause_b_id) = some v := by
      cases h : rm (pairKey r.clause_a_id r.clause_b_id) with
      | none => rw [h] at hn; exact absurd hn (by simp [isNumericRule])
      | some v => exact ⟨v, rfl⟩
    have ht : v.vtype = "numeric" := by
      rw [hv] at hn
      simpa [isNumericRule] using hn
    have hconf := hnum v hv ht
    rw [decideSingle_numeric_eq rm np r v hv ht] at hc
    have hrec := Option.some_injective _ hc
    subst hrec
    dsimp only
    by_cases hlt : r.contradiction_score < 1/2
    · rw [if_pos hlt, hconf, pyRound1_nine_tenths]
      exact severityConfOk_of_pct (by norm_num) (by norm_num)
    · rw [if_neg hlt]
      push_neg at hlt
      exact severityConfOk_of_pct (le_pyRound1_of_half_le hlt) (pyRound1_le_100 hc1)
  · have hn' : isNumericRule (rm (pairKey r.clause_a_id r.clause_b_id)) = false := by
      cases hb : isNumericRule (rm (pairKey r.clause_a_id r.clause_b_id)) with
      | true => exact absurd hb hn
      | false => rfl
    have h12 : 1/2 ≤ r.contradiction_score := by
      by_contra hlt
      push_neg at hlt
      have hle : r.contradiction_score ≤
          (if (rm (pairKey r.clause_a_id r.clause_b_id)).isSome then (1:ℚ)/2 else 3/4) := by
        split_ifs <;> linarith
      rw [decideSingle_none_of_le rm np r hn' hle] at hc
      exact Option.noConfusion hc
    simp only [decideSingle, hn', Bool.false_eq_true, and_false, false_and, and_true,
      if_false] at hc
    have hrec := Option.some_injective _ (ite_chain3_some hc)
    subst hrec
    dsimp only
    exact severityConfOk_of_pct (le_pyRound1_of_half_le h12) (pyRound1_le_100 hc1)

theorem decideCross_bounds (rm : ℕ × ℕ → Option Violation) (np : List NliPair)
    (r : NLIResult) (da db : ℕ) (cc : CrossContra) (hp : probTriple r)
    (hnum : ∀ v, rm (pairKey r.clause_a_id r.clause_b_id) = some v →
      v.vtype = "numeric" → v.confidence = 9/10)
    (hc : decideCross rm np r da db = some cc) :
    severityConfOk cc.severity cc.confidence := by
  obtain ⟨hc0, he0, hn0, hsum⟩ := hp
  have hc1 : r.contradiction_score ≤ 1 := by linarith
  by_cases hn : isNumericRule (rm (pairKey r.clause_a_id r.clause_b_id)) = true
  · obtain ⟨v, hv⟩ : ∃ v, rm (pairKey r.clause_a_id r.clause_b_id) = some v := by
      cases h : rm (pairKey r.clause_a_id r.clause_b_id) with
      | none => rw [h] at hn; exact absurd hn (by simp [isNumericRule])
      | some v => exact ⟨v, rfl⟩
    have ht : v.vtype = "numeric" := by
      rw [hv] at hn
      simpa [isNumericRule] using hn
    have hconf := hnum v hv ht
    rw [decideCross_numeric_eq rm np r v da db hv ht] at hc
    have hrec := Option.some_injective _ hc
    subst hrec
    dsimp only
    by_cases hlt : r.contradiction_score < 1/2
    · rw [if_pos hlt, hconf, pyRound1_nine_tenths]
      exact severityConfOk_of_pct (by norm_num) (by norm_num)
    · rw [if_neg hlt]
      push_neg at hlt
      exact severityConfOk_of_pct (le_pyRound1_of_half_le hlt) (pyRound1_le_100 hc1)
  · have hn' : isNumericRule (rm (pairKey r.clause_a_id r.clause_b_id)) = false := by
      cases hb : isNumericRule (rm (pairKey r.clause_a_id r.clause_b_id)) with
      | true => exact absurd hb hn
      | false => rfl
    have h12 : 1/2 ≤ r.contradiction_score := by
      by_contra hlt
      push_neg at hlt
      have hle : r.contradiction_score <
          (if (rm (pairKey r.clause_a_id r.clause_b_id)).isSome then (1:ℚ)/2 else 3/4) := by
        split_ifs <;> linarith
      rw [decideCross_none_of_lt rm np r da db hn' hle] at hc
      exact Option.noConfusion hc
    simp only [decideCross, hn', Bool.false_eq_true, and_false, false_and, and_true,
      if_false] at hc
    have hrec := Option.some_injective _ (ite_chain3_some hc)
    subst hrec
    dsimp only
    exact severityConfOk_of_pct (le_pyRound1_of_half_le h12) (pyRound1_le_100 hc1)

theorem cnm_some_fields {a b : Clause} {v : Violation}
    (hv : checkNumericMismatch a b = some v) :
    v.vtype = "numeric" ∧ v.severity = "high" ∧ v.confidence = 9/10 := by
  unfold checkNumericMismatch at hv
  split_ifs at hv
  have := Option.some_injective _ hv
  subst this
  exact ⟨rfl, rfl, rfl⟩

theorem cmm_some_fields {a b : Clause} {v : Violation}
    (hv : checkModalMismatch a b = some v) :
    v.vtype = "modal" ∧ v.confidence = 3/4 := by
  unfold checkModalMismatch at hv
  split_ifs at hv <;> try exact Option.noConfusion hv
  have := Option.some_injective _ hv
  subst this
  exact ⟨rfl, rfl⟩

theorem cam_some_fields {a b : Clause} {v : Violation}
    (hv : checkAuthorityMismatch a b = some v) :
    v.vtype = "authority" ∧ v.confidence = 7/10 := by
  unfold checkAuthorityMismatch at hv
  split_ifs at hv <;> try exact Option.noConfusion hv
  have := Option.some_injective _ hv
  subst this
  exact ⟨rfl, rfl⟩

theorem labelConflict_mem_fields {a b : Clause} {ea eb : Ents} {labels : List String}
    {t s : String} {f : String → String → String} {conf : ℚ} {v : Violation}
    (h : v ∈ checkLabelConflict a b ea eb labels t s f conf) :
    v.vtype = t ∧ v.confidence = conf := by
  unfold checkLabelConflict at h
  split_ifs at h <;> try exact absurd h (List.not_mem_nil _)
  rcases List.mem_singleton.mp h with rfl
  exact ⟨rfl, rfl⟩

theorem entity_mem_type {a b : Clause} {ea eb : Ents} {v : Violation}
    (h : v ∈ checkEntityContradictions a b ea eb) :
    v.vtype = "date" ∨ v.vtype = "financial" ∨ v.vtype = "entity" ∨
      v.vtype = "location" ∨ v.vtype = "quantity" := by
  unfold checkEntityContradictions at h
  split_ifs at h <;> try exact absurd h (List.not_mem_nil _)
  simp only [List.append_assoc, List.mem_append] at h
  rcases h with h | h | h | h | h
  · exact Or.inl (labelConflict_mem_fields h).1
  · exact Or.inr (Or.inl (labelConflict_mem_fields h).1)
  · exact Or.inr (Or.inr (Or.inl (labelConflict_mem_fields h).1))
  · exact Or.inr (Or.inr (Or.inr (Or.inl (labelConflict_mem_fields h).1)))
  · exact Or.inr (Or.inr (Or.inr (Or.inr (labelConflict_mem_fields h).1)))

theorem violationsFor_numeric_conf {em : List (ℕ × Ents)} {a b : Clause} {v : Violation}
    (h : v ∈ violationsFor em a b) (ht : v.vtype = "numeric") : v.confidence = 9/10 := by
  unfold violationsFor at h
  simp only [List.append_assoc, List.mem_append] at h
  rcases h with h | h | h | h
  · exact (cnm_some_fields (Option.mem_def.mp (Option.mem_toList.mp h))).2.2
  · have hm := (cmm_some_fields (Option.mem_def.mp (Option.mem_toList.mp h))).1
    rw [ht] at hm
    exact absurd hm (by decide)
  · have hm := (cam_some_fields (Option.mem_def.mp (Option.mem_toList.mp h))).1
    rw [ht] at hm
    exact absurd hm (by decide)
  · split_ifs at h <;> try exact absurd h (List.not_mem_nil _)
    rcases entity_mem_type h with hm | hm | hm | hm | hm <;>
      (rw [ht] at hm; exact absurd hm (by decide))

theorem checkBatch_numeric_conf {cs : List Clause} {em : List (ℕ × Ents)} {v : Violation}
    (h : v ∈ checkContradictionsBatch cs em) (ht : v.vtype = "numeric") :
    v.confidence = 9/10 := by
  unfold checkContradictionsBatch at h
  obtain ⟨s, hs, hv⟩ := List.mem_flatten.mp h
  obtain ⟨p, hp, rfl⟩ := List.mem_map.mp hs
  exact violationsFor_numeric_conf hv ht

theorem foldl_ruleMap_mem : ∀ (vs : List Violation) (m : (ℕ × ℕ) → Option Violation)
    (k : ℕ × ℕ) (v : Violation),
    (vs.foldl (fun m v k => if k = pairKey v.clause_a.id v.clause_b.id then some v else m k) m) k
      = some v → v ∈ vs ∨ m k = some v := by
  intro vs
  induction vs with
  | nil => exact fun m k v h => Or.inr h
  | cons hd tl ih =>
    intro m k v h
    simp only [List.foldl_cons] at h
    rcases ih _ k v h with hmem | hbase
    · exact Or.inl (List.mem_cons_of_mem _ hmem)
    · by_cases hk : k = pairKey hd.clause_a.id hd.clause_b.id
      · rw [if_pos hk] at hbase
        have := Option.some_injective _ hbase
        subst this
        exact Or.inl (List.mem_cons_self _ _)
      · rw [if_neg hk] at hbase
        exact Or.inr hbase

theorem buildRuleMap_mem {vs : List Violation} {k : ℕ × ℕ} {v : Violation}
    (h : buildRuleMap vs k = some v) : v ∈ vs := by
  unfold buildRuleMap at h
  rcases foldl_ruleMap_mem vs (fun _ => none) k v h with hm | hb
  · exact hm
  · exact Option.noConfusion hb

/-- The probability contract satisfied by every `batch_nli_check` row,
given the softmax contract of the model oracle. -/
theorem batchNliCheck_probTriple {model : String → String → ℚ × ℚ × ℚ}
    {pairs : List NliPair} {r : NLIResult}
    (hm : ∀ ta tb, 0 ≤ (model ta tb).1 ∧ 0 ≤ (model ta tb).2.1 ∧ 0 ≤ (model ta tb).2.2 ∧
      (model ta tb).1 + (model ta tb).2.1 + (model ta tb).2.2 = 1)
    (hr : r ∈ batchNliCheck model pairs) : probTriple r := by
  unfold batchNliCheck at hr
  obtain ⟨p, hp, rfl⟩ := List.mem_map.mp hr
  obtain ⟨a1, a2, a3, a4⟩ := hm p.ta p.tb
  exact ⟨a1, a2, a3, a4⟩

theorem mem_storeCross_decide (rm : ℕ × ℕ → Option Violation) (np : List NliPair) :
    ∀ (l : List (NLIResult × ℕ × ℕ)) (seen : List (ℕ × ℕ)) (cc : CrossContra),
      cc ∈ storeCross rm np l seen →
      ∃ x ∈ l, decideCross rm np x.1 x.2.1 x.2.2 = some cc := by
  intro l
  induction l with
  | nil =>
    intro seen cc h
    exact absurd h (List.not_mem_nil _)
  | cons hd tl ih =>
    intro seen cc h
    obtain ⟨r, da, db⟩ := hd
    rw [storeCross] at h
    cases hdec : decideCross rm np r da db with
    | none =>
      rw [hdec] at h
      obtain ⟨x, hx, he⟩ := ih _ cc h
      exact ⟨x, List.mem_cons_of_mem _ hx, he⟩
    | some cc0 =>
      rw [hdec] at h
      simp only at h
      by_cases hseen : pairKey r.clause_a_id r.clause_b_id ∈ seen
      · rw [if_pos hseen] at h
        obtain ⟨x, hx, he⟩ := ih _ cc h
        exact ⟨x, List.mem_cons_of_mem _ hx, he⟩
      · rw [if_neg hseen] at h
        rcases List.mem_cons.mp h with rfl | hmem
        · exact ⟨(r, da, db), List.mem_cons_self _ _, hdec⟩
        · obtain ⟨x, hx, he⟩ := ih _ cc hmem
          exact ⟨x, List.mem_cons_of_mem _ hx, he⟩

/-- C2: every contradiction row stored by the single-document worker,
and every cross-contradiction row stored by the comparison worker's
storage loop, has severity `high` exactly when its stored confidence is
at least 90 and `medium` otherwise (severity `low` is never produced),
and its stored confidence lies in [50, 100].  The single-document part
is stated over the whole pipeline run with the NLI oracle constrained to
softmax probabilities; the cross part is stated over the storage loop,
whose rule map (built from the rule checker's output) gives numeric
violations confidence 0.9, as the hypothesis requires. -/
theorem claim_C2_severity_confidence :
    (∀ (clauseTexts : List String) (simFn : List Clause → List (Clause × Clause))
        (nerFn : String → Ents) (model : String → String → ℚ × ℚ × ℚ),
      (∀ ta tb, 0 ≤ (model ta tb).1 ∧ 0 ≤ (model ta tb).2.1 ∧ 0 ≤ (model ta tb).2.2 ∧
        (model ta tb).1 + (model ta tb).2.1 + (model ta tb).2.2 = 1) →
      ∀ c ∈ (processDocumentRun clauseTexts simFn nerFn model).contradictions,
        severityConfOk c.severity c.confidence) ∧
    (∀ (rm : ℕ × ℕ → Option Violation) (np : List NliPair) (l : List (NLIResult × ℕ × ℕ)),
      (∀ x ∈ l, probTriple x.1) →
      (∀ k v, rm k = some v → v.vtype = "numeric" → v.confidence = 9/10) →
      ∀ cc ∈ storeCross rm np l [], severityConfOk cc.severity cc.confidence) := by
  constructor
  · intro clauseTexts simFn nerFn model hm c hc
    simp only [processDocumentRun, storeSingle] at hc
    split_ifs at hc
    all_goals
      first
      | exact absurd hc (List.not_mem_nil _)
      | · obtain ⟨r, hr, hdec⟩ := List.mem_filterMap.mp hc
          exact decideSingle_bounds _ _ r c (batchNliCheck_probTriple hm hr)
            (fun v hv ht => checkBatch_numeric_conf (buildRuleMap_mem hv) ht) hdec
  · intro rm np l hl hnum cc hcc
    obtain ⟨x, hx, hdec⟩ := mem_storeCross_decide rm np l [] cc hcc
    exact decideCross_bounds rm np x.1 x.2.1 x.2.2 cc (hl x hx)
      (fun v hv ht => hnum _ v hv ht) hdec

/-- Unordered key of an NLI candidate pair. -/
def npKey (p : NliPair) : ℕ × ℕ := pairKey p.ia p.ib

/-- Unordered key of a stored Contradiction row. -/
def contraKey (c : Contra) : ℕ × ℕ := pairKey c.clause_a_id c.clause_b_id

/-- Unordered key of a stored CrossContradiction row. -/
def crossKey (c : CrossContra) : ℕ × ℕ := pairKey c.clause_a_id c.clause_b_id

theorem decideSingle_ids {rm : ℕ × ℕ → Option Violation} {np : List NliPair}
    {r : NLIResult} {c : Contra} (hc : decideSingle rm np r = some c) :
    c.clause_a_id = r.clause_a_id ∧ c.clause_b_id = r.clause_b_id := by
  simp only [decideSingle] at hc
  have := Option.some_injective _ (ite_chain3_some hc)
  subst this
  exact ⟨rfl, rfl⟩

theorem decideCross_ids {rm : ℕ × ℕ → Option Violation} {np : List NliPair}
    {r : NLIResult} {da db : ℕ} {cc : CrossContra}
    (hc : decideCross rm np r da db = some cc) :
    cc.clause_a_id = r.clause_a_id ∧ cc.clause_b_id = r.clause_b_id := by
  simp only [decideCross] at hc
  have := Option.some_injective _ (ite_chain3_some hc)
  subst this
  exact ⟨rfl, rfl⟩

/-- Reference first-wins key de-duplication, used to characterise the
single worker's merge fold. -/
def dedupByKey (seen : List (ℕ × ℕ)) : List NliPair → List NliPair
  | [] => []
  | p :: rest =>
    if npKey p ∈ seen then dedupByKey seen rest
    else p :: dedupByKey (npKey p :: seen) rest

theorem foldl_mergeStep_eq : ∀ (l : List NliPair) (seen : List (ℕ × ℕ)) (acc : List NliPair),
    (l.foldl mergeStep (seen, acc)).2 = acc ++ dedupByKey seen l := by
  intro l
  induction l with
  | nil => intro seen acc; simp [dedupByKey]
  | cons p rest ih =>
    intro seen acc
    simp only [List.foldl_cons, dedupByKey]
    by_cases hk : npKey p ∈ seen
    · rw [if_pos hk]
      have hstep : mergeStep (seen, acc) p = (seen, acc) := by
        simp only [mergeStep]
        rw [if_pos (show pairKey p.ia p.ib ∈ seen from hk)]
      rw [hstep, ih seen acc]
    · rw [if_neg hk]
      have hstep : mergeStep (seen, acc) p = (npKey p :: seen, acc ++ [p]) := by
        simp only [mergeStep]
        rw [if_neg (show pairKey p.ia p.ib ∉ seen from hk)]
        rfl
      rw [hstep, ih (npKey p :: seen) (acc ++ [p]), List.append_assoc]
      rfl

theorem mergeCandidates_eq_dedup (sim : List (Clause × Clause)) (viols : List Violation) :
    mergeCandidates sim viols = dedupByKey [] (simToPairs sim ++ violToPairs viols) := by
  unfold mergeCandidates
  rw [foldl_mergeStep_eq]
  rfl

theorem dedupByKey_not_mem_seen : ∀ (l : List NliPair) (seen : List (ℕ × ℕ)) (p : NliPair),
    p ∈ dedupByKey seen l → npKey p ∉ seen := by
  intro l
  induction l with
  | nil => intro seen p h; exact absurd h (List.not_mem_nil _)
  | cons q rest ih =>
    intro seen p h
    rw [dedupByKey] at h
    by_cases hk : npKey q ∈ seen
    · rw [if_pos hk] at h
      exact ih seen p h
    · rw [if_neg hk] at h
      rcases List.mem_cons.mp h with rfl | hmem
      · exact hk
      · intro habs
        exact ih _ p hmem (List.mem_cons_of_mem _ habs)

theorem dedupByKey_pairwise : ∀ (l : List NliPair) (seen : List (ℕ × ℕ)),
    (dedupByKey seen l).Pairwise (fun p q => npKey p ≠ npKey q) := by
  intro l
  induction l with
  | nil => intro seen; exact List.Pairwise.nil
  | cons q rest ih =>
    intro seen
    rw [dedupByKey]
    by_cases hk : npKey q ∈ seen
    · rw [if_pos hk]
      exact ih seen
    · rw [if_neg hk]
      refine List.Pairwise.cons ?_ (ih _)
      intro p hp habs
      exact dedupByKey_not_mem_seen rest _ p hp (habs ▸ List.mem_cons_self _ _)

theorem dedupByKey_find? : ∀ (l : List NliPair) (seen : List (ℕ × ℕ)) (k : ℕ × ℕ),
    k ∉ seen →
    (dedupByKey seen l).find? (fun p => npKey p == k) = l.find? (fun p => npKey p == k) := by
  intro l
  induction l with
  | nil => intro seen k _; rfl
  | cons q rest ih =>
    intro seen k hk
    rw [dedupByKey]
    by_cases hq : npKey q ∈ seen
    · rw [if_pos hq]
      have hqk : (npKey q == k) = false := by
        rw [beq_eq_false_iff_ne]
        intro habs
        exact hk (habs ▸ hq)
      rw [List.find?_cons, hqk]
      exact ih seen k hk
    · rw [if_neg hq]
      by_cases hqk : npKey q = k
      · have hb : (npKey q == k) = true := beq_iff_eq.mpr hqk
        rw [List.find?_cons, List.find?_cons, hb]
      · have hb : (npKey q == k) = false := by
          rw [beq_eq_false_iff_ne]
          exact hqk
        rw [List.find?_cons, List.find?_cons, hb]
        exact ih (npKey q :: seen) k (by
          intro habs
          rcases List.mem_cons.mp habs with h | h
          · exact hqk h.symm
          · exact hk h)

theorem storeCross_pairwise (rm : ℕ × ℕ → Option Violation) (np : List NliPair) :
    ∀ (l : List (NLIResult × ℕ × ℕ)) (seen : List (ℕ × ℕ)),
      (storeCross rm np l seen).Pairwise (fun c d => crossKey c ≠ crossKey d) ∧
      ∀ cc ∈ storeCross rm np l seen, crossKey cc ∉ seen := by
  intro l
  induction l with
  | nil =>
    intro seen
    exact ⟨List.Pairwise.nil, fun cc h => absurd h (List.not_mem_nil _)⟩
  | cons hd tl ih =>
    intro seen
    obtain ⟨r, da, db⟩ := hd
    rw [storeCross]
    cases hdec : decideCross rm np r da db with
    | none => exact ih seen
    | some cc0 =>
      simp only
      by_cases hseen : pairKey r.clause_a_id r.clause_b_id ∈ seen
      · rw [if_pos hseen]
        exact ih seen
      · rw [if_neg hseen]
        have hkey : crossKey cc0 = pairKey r.clause_a_id r.clause_b_id := by
          unfold crossKey
          rw [(decideCross_ids hdec).1, (decideCross_ids hdec).2]
        constructor
        · refine List.Pairwise.cons ?_ (ih _).1
          intro d hd habs
          have := (ih (pairKey r.clause_a_id r.clause_b_id :: seen)).2 d hd
          exact this (habs ▸ hkey ▸ List.mem_cons_self _ _)
        · intro cc hcc
          rcases List.mem_cons.mp hcc with rfl | hmem
          · rw [hkey]
            exact hseen
          · have := (ih (pairKey r.clause_a_id r.clause_b_id :: seen)).2 cc hmem
            intro habs
            exact this (List.mem_cons_of_mem _ habs)

theorem mergeCandidates_pairwise (sim : List (Clause × Clause)) (viols : List Violation) :
    (mergeCandidates sim viols).Pairwise (fun p q => npKey p ≠ npKey q) := by
  rw [mergeCandidates_eq_dedup]
  exact dedupByKey_pairwise _ _

theorem storeSingle_pairwise (rm : ℕ × ℕ → Option Violation)
    (model : String → String → ℚ × ℚ × ℚ)
    (sim : List (Clause × Clause)) (viols : List Violation) :
    (storeSingle rm (preFilterSingle (mergeCandidates sim viols))
      (batchNliCheck model (preFilterSingle (mergeCandidates sim viols)))).Pairwise
      (fun c d => contraKey c ≠ contraKey d) := by
  have h2 : (preFilterSingle (mergeCandidates sim viols)).Pairwise
      (fun p q => npKey p ≠ npKey q) := by
    unfold preFilterSingle
    exact List.Pairwise.sublist (List.filter_sublist _) (mergeCandidates_pairwise sim viols)
  have h3 : (batchNliCheck model (preFilterSingle (mergeCandidates sim viols))).Pairwise
      (fun r r' => pairKey r.clause_a_id r.clause_b_id ≠
        pairKey r'.clause_a_id r'.clause_b_id) := by
    unfold batchNliCheck
    exact List.pairwise_map.mpr (h2.imp (fun {p q} h => h))
  unfold storeSingle
  refine List.pairwise_filterMap.mpr (h3.imp ?_)
  intro r r' hne c hc c' hc'
  have e1 := decideSingle_ids (Option.mem_def.mp hc)
  have e2 := decideSingle_ids (Option.mem_def.mp hc')
  unfold contraKey
  rw [e1.1, e1.2, e2.1, e2.2]
  exact hne

/-- C5: within one run no two stored rows share an unordered clause-pair
key — in the single-document pipeline (whatever the similarity, NER and
NLI oracles return) and in the cross-document storage loop — and the
single worker's merge of similarity candidates and rule violations keeps
exactly the first emission of each unordered key (similarity pairs come
first, rule-violation pairs second). -/
theorem claim_C5_pair_dedup :
    (∀ (clauseTexts : List String) (simFn : List Clause → List (Clause × Clause))
        (nerFn : String → Ents) (model : String → String → ℚ × ℚ × ℚ),
      ((processDocumentRun clauseTexts simFn nerFn model).contradictions).Pairwise
        (fun c d => contraKey c ≠ contraKey d)) ∧
    (∀ (rm : ℕ × ℕ → Option Violation) (np : List NliPair)
        (l : List (NLIResult × ℕ × ℕ)),
      (storeCross rm np l []).Pairwise (fun c d => crossKey c ≠ crossKey d)) ∧
    (∀ (sim : List (Clause × Clause)) (viols : List Violation) (k : ℕ × ℕ),
      (mergeCandidates sim viols).find? (fun p => npKey p == k) =
        (simToPairs sim ++ violToPairs viols).find? (fun p => npKey p == k)) := by
  refine ⟨?_, ?_, ?_⟩
  · intro clauseTexts simFn nerFn model
    simp only [processDocumentRun]
    split_ifs
    all_goals try exact List.Pairwise.nil
    all_goals exact storeSingle_pairwise _ _ _ _
  · intro rm np l
    exact (storeCross_pairwise rm np l []).1
  · intro sim viols k
    rw [mergeCandidates_eq_dedup]
    exact dedupByKey_find? _ [] k (List.not_mem_nil _)

/-- C7: a document whose text segments into zero clauses completes
normally: terminal status `completed`, progress 100, and no stored
contradictions, whatever the similarity, NER and NLI oracles are. -/
theorem claim_C7_empty_segmentation (simFn : List Clause → List (Clause × Clause))
    (nerFn : String → Ents) (model : String → String → ℚ × ℚ × ℚ) :
    processDocumentRun [] simFn nerFn model =
      ⟨"completed", "completed", 100, []⟩ := rfl

/-- A concrete document row used by the C4 counterexample. -/
def sampleDoc : Document :=
  ⟨"d1", "doc.pdf", "user/doc.pdf", "processing", "nli", 80, none, none⟩

/-- C4 counterexample: the single-document failure handler stores no
error message at all — two runs failing with different exception
messages leave byte-identical Document rows (the Document model has no
error-message column), refuting the claim that `process_document` sets
`error_message = str(e)[:500]` on its owning entity. -/
theorem claim_C4_counterexample :
    (processDocumentOnError sampleDoc "errorA").1 =
      (processDocumentOnError sampleDoc "errorB").1 ∧
    "errorA" ≠ "errorB" :=
  ⟨rfl, by decide⟩

/-- C4 (amended): on an unhandled exception `process_multi_documents`
marks its ComparisonSession `failed` with `error_message = str(e)[:500]`
and re-raises, while `process_document` marks its Document `failed` only
(status; every other column is untouched and no error message exists on
the Document model) and re-raises. -/
theorem claim_C4_failure_handling (d : Document) (s : ComparisonSession) (e : String) :
    (processDocumentOnError d e).1.status = "failed" ∧
    (processDocumentOnError d e).2 = Except.error e ∧
    (processDocumentOnError d e).1.id = d.id ∧
    (processDocumentOnError d e).1.name = d.name ∧
    (processDocumentOnError d e).1.processing_stage = d.processing_stage ∧
    (processDocumentOnError d e).1.progress_percent = d.progress_percent ∧
    (processDocumentOnError d e).1.analysis_start_time = d.analysis_start_time ∧
    (processDocumentOnError d e).1.analysis_end_time = d.analysis_end_time ∧
    (processMultiOnError s e).1.status = "failed" ∧
    (processMultiOnError s e).1.error_message = some (e.take 500) ∧
    (processMultiOnError s e).2 = Except.error e :=
  ⟨rfl, rfl, rfl, rfl, rfl, rfl, rfl, rfl, rfl, rfl, rfl⟩

theorem preFilterKeep_of_empty {ta tb : String}
    (h : contentSet stopWorker ta = [] ∨ contentSet stopWorker tb = []) :
    preFilterKeep ta tb = true := by
  unfold preFilterKeep
  rw [if_neg]
  rcases h with h | h
  · exact fun hc => hc.1 h
  · exact fun hc => hc.2 h

theorem preFilterKeep_false {ta tb : String} (h : preFilterKeep ta tb = false) :
    contentSet stopWorker ta ≠ [] ∧ contentSet stopWorker tb ≠ [] ∧
    (((contentSet stopWorker ta).filter (· ∈ contentSet stopWorker tb)).length : ℚ) /
      (max (contentSet stopWorker ta).length (contentSet stopWorker tb).length : ℚ)
      < 3/10 := by
  unfold preFilterKeep at h
  by_cases h1 : contentSet stopWorker ta ≠ [] ∧ contentSet stopWorker tb ≠ []
  · rw [if_pos h1] at h
    by_cases h2 : (((contentSet stopWorker ta).filter (· ∈ contentSet stopWorker tb)).length : ℚ) /
        (max (contentSet stopWorker ta).length (contentSet stopWorker tb).length : ℚ) < 3/10
    · exact ⟨h1.1, h1.2, h2⟩
    · rw [if_neg h2] at h
      exact Bool.noConfusion h
  · rw [if_neg h1] at h
    exact Bool.noConfusion h

/-- C10: in both workers the 0.30 content-word-overlap pre-filter can
only reject a pair when both clause texts have a non-empty content-word
set; a pair with an empty content-word set on either side always passes
through to NLI verification. -/
theorem claim_C10_prefilter_empty_bypass :
    (∀ (l : List NliPair) (p : NliPair), p ∈ l →
      (contentSet stopWorker p.ta = [] ∨ contentSet stopWorker p.tb = []) →
      p ∈ preFilterSingle l) ∧
    (∀ (l : List NliPair) (p : NliPair), p ∈ l → p ∉ preFilterSingle l →
      contentSet stopWorker p.ta ≠ [] ∧ contentSet stopWorker p.tb ≠ [] ∧
      (((contentSet stopWorker p.ta).filter (· ∈ contentSet stopWorker p.tb)).length : ℚ) /
        (max (contentSet stopWorker p.ta).length (contentSet stopWorker p.tb).length : ℚ)
        < 3/10) ∧
    (∀ (l : List (NliPair × ℕ × ℕ)) (x : NliPair × ℕ × ℕ), x ∈ l →
      (contentSet stopWorker x.1.ta = [] ∨ contentSet stopWorker x.1.tb = []) →
      x ∈ preFilterCross l) := by
  refine ⟨?_, ?_, ?_⟩
  · intro l p hp he
    exact List.mem_filter.mpr ⟨hp, preFilterKeep_of_empty he⟩
  · intro l p hp hout
    cases hk : preFilterKeep p.ta p.tb with
    | true => exact absurd (List.mem_filter.mpr ⟨hp, hk⟩) hout
    | false => exact preFilterKeep_false hk
  · intro l x hx he
    exact List.mem_filter.mpr ⟨hx, preFilterKeep_of_empty he⟩

theorem lookupCount_counterAdd : ∀ (acc : List (String × ℕ)) (s k : String),
    lookupCount (counterAdd acc s) k = lookupCount acc k + (if s = k then 1 else 0) := by
  intro acc
  induction acc with
  | nil =>
    intro s k
    by_cases h : s = k
    · subst h
      simp [counterAdd, lookupCount, List.find?_cons]
    · have hd : (decide (s = k)) = false := decide_eq_false h
      simp [counterAdd, lookupCount, List.find?_cons, hd, h]
  | cons hd0 tl ih =>
    intro s k
    obtain ⟨k0, n0⟩ := hd0
    rw [counterAdd]
    by_cases h0 : k0 = s
    · rw [if_pos h0]
      subst h0
      by_cases hk : k0 = k
      · subst hk
        simp [lookupCount, List.find?_cons]
      · have hdk : (decide (k0 = k)) = false := decide_eq_false hk
        simp [lookupCount, List.find?_cons, hdk, hk]
    · rw [if_neg h0]
      by_cases hk : k0 = k
      · subst hk
        have hsk : ¬(s = k0) := fun h => h0 h.symm
        simp [lookupCount, List.find?_cons, hsk]
      · have hdk : (decide (k0 = k)) = false := decide_eq_false hk
        simp only [lookupCount, List.find?_cons, hdk]
        exact ih s k

theorem lookupCount_foldl : ∀ (l : List String) (acc : List (String × ℕ)) (k : String),
    lookupCount (l.foldl counterAdd acc) k = lookupCount acc k + l.count k := by
  intro l
  induction l with
  | nil =>
    intro acc k
    simp [List.count_nil]
  | cons s rest ih =>
    intro acc k
    simp only [List.foldl_cons]
    rw [ih (counterAdd acc s) k, lookupCount_counterAdd]
    rw [List.count_cons]
    have : (s == k) = decide (s = k) := rfl
    by_cases h : s = k
    · simp [h]
      omega
    · have h1 : (decide (s = k)) = false := by
        rw [decide_eq_false_iff_not]
        exact h
      simp [h, h1]

theorem lookupCount_buildCounter (l : List String) (k : String) :
    lookupCount (buildCounter l) k = l.count k := by
  unfold buildCounter
  rw [lookupCount_foldl]
  simp [lookupCount]

theorem counterAdd_keys : ∀ (acc : List (String × ℕ)) (s : String),
    (counterAdd acc s).map Prod.fst =
      if s ∈ acc.map Prod.fst then acc.map Prod.fst else acc.map Prod.fst ++ [s] := by
  intro acc
  induction acc with
  | nil =>
    intro s
    simp [counterAdd]
  | cons hd tl ih =>
    intro s
    obtain ⟨k0, n0⟩ := hd
    rw [counterAdd]
    by_cases h0 : k0 = s
    · subst h0
      simp
    · rw [if_neg h0]
      simp only [List.map_cons]
      rw [ih s]
      by_cases hs : s ∈ tl.map Prod.fst
      · rw [if_pos hs, if_pos (by simp [hs])]
      · rw [if_neg hs, if_neg (by
          simp only [List.mem_cons]
          rintro (h | h)
          · exact h0 h.symm
          · exact hs h)]
        simp

theorem buildCounter_keys_nodup (l : List String) : ((buildCounter l).map Prod.fst).Nodup := by
  unfold buildCounter
  suffices h : ∀ (acc : List (String × ℕ)), (acc.map Prod.fst).Nodup →
      ((l.foldl counterAdd acc).map Prod.fst).Nodup by
    exact h [] List.nodup_nil
  induction l with
  | nil => exact fun acc h => h
  | cons s rest ih =>
    intro acc hacc
    simp only [List.foldl_cons]
    refine ih _ ?_
    rw [counterAdd_keys]
    by_cases hs : s ∈ acc.map Prod.fst
    · rwa [if_pos hs]
    · rw [if_neg hs]
      exact List.Nodup.append hacc (List.nodup_singleton s) (by
        intro a ha hb
        rw [List.mem_singleton] at hb
        subst hb
        exact hs ha)

theorem mem_counter_lookup {acc : List (String × ℕ)} {p : String × ℕ}
    (hnd : (acc.map Prod.fst).Nodup) (hp : p ∈ acc) : lookupCount acc p.1 = p.2 := by
  induction acc with
  | nil => exact absurd hp (List.not_mem_nil _)
  | cons hd tl ih =>
    rcases List.mem_cons.mp hp with rfl | hmem
    · simp [lookupCount, List.find?_cons]
    · obtain ⟨k0, n0⟩ := hd
      simp only [List.map_cons, List.nodup_cons] at hnd
      have hk : k0 ≠ p.1 := by
        intro habs
        exact hnd.1 (habs ▸ (List.mem_map.mpr ⟨p, hmem, rfl⟩))
      have hd2 : (decide (k0 = p.1)) = false := by
        rw [decide_eq_false_iff_not]
        exact hk
      simp only [lookupCount, List.find?_cons, hd2]
      exact ih hnd.2 hmem

theorem lookup_pos_mem {acc : List (String × ℕ)} {k : String}
    (h : 0 < lookupCount acc k) : (k, lookupCount acc k) ∈ acc := by
  cases hf : acc.find? (fun p => decide (p.1 = k)) with
  | none =>
    unfold lookupCount at h
    rw [hf] at h
    exact absurd h (by simp)
  | some p =>
    have hl : lookupCount acc k = p.2 := by
      unfold lookupCount
      rw [hf]
    have hpk : p.1 = k := by
      have := List.find?_some hf
      simpa using this
    rw [hl]
    have he : (k, p.2) = p := by
      rw [← hpk]
    rw [he]
    exact List.mem_of_find?_eq_some hf

theorem mem_repeatedNorms {lines : List String} {n : ℕ} {s : String} :
    s ∈ repeatedNorms lines n ↔
      pageThreshold n ≤ (normList lines).count s ∧ s.length < 140 := by
  unfold repeatedNorms
  rw [List.mem_filterMap]
  constructor
  · rintro ⟨p, hp, hsome⟩
    by_cases hc : pageThreshold n ≤ p.2 ∧ p.1.length < 140
    · rw [if_pos hc] at hsome
      have := Option.some_injective _ hsome
      subst this
      have hl := mem_counter_lookup (buildCounter_keys_nodup (normList lines)) hp
      rw [lookupCount_buildCounter] at hl
      exact ⟨hl ▸ hc.1, hc.2⟩
    · rw [if_neg hc] at hsome
      exact Option.noConfusion hsome
  · rintro ⟨hcnt, hlen⟩
    have hpos : 0 < lookupCount (buildCounter (normList lines)) s := by
      have h2 : 2 ≤ pageThreshold n := le_max_left _ _
      rw [lookupCount_buildCounter]
      omega
    refine ⟨(s, lookupCount (buildCounter (normList lines)) s), lookup_pos_mem hpos, ?_⟩
    have hcond : pageThreshold n ≤ lookupCount (buildCounter (normList lines)) s ∧
        s.length < 140 := by
      rw [lookupCount_buildCounter]
      exact ⟨hcnt, hlen⟩
    rw [if_pos hcond]

/-- C9 counterexample: a one-page PDF text containing the standalone
page-number line `3` is returned unchanged by the PDF cleanup (the
header/footer and page-number stripping only runs for documents with at
least 2 pages and at least 10 lines), refuting the claim that every
standalone page-number line is removed for every PDF input. -/
theorem claim_C9_counterexample :
    cleanPdfText "3\nfoo" 1 = "3\nfoo" ∧ isStandalonePage "3" = true := by
  constructor
  · rfl
  · decide

/-- C9 (amended): the PDF header/footer cleanup runs only when the
document has at least 2 pages and its text at least 10 lines (otherwise
the text is returned unchanged); when it runs, a line is removed exactly
when its page-number-normalised form is shorter than 140 characters and
occurs at least `max(2, floor(0.4 * num_pages))` times among all
non-blank lines of the document (occurrences are counted over lines,
not distinct pages), or when the line is a standalone page-number
line. -/
theorem claim_C9_pdf_cleanup :
    (∀ (raw : String) (n : ℕ), n < 2 ∨ (pySplitChar (Char.ofNat 10) raw).length < 10 →
      cleanPdfText raw n = raw) ∧
    (∀ (raw : String) (n : ℕ), 2 ≤ n → 10 ≤ (pySplitChar (Char.ofNat 10) raw).length →
      cleanPdfText raw n = pyJoin "\n" ((pySplitChar (Char.ofNat 10) raw).filter
        (fun line =>
          if pyStrip line ≠ "" ∧
              pageThreshold n ≤
                ((normList (pySplitChar (Char.ofNat 10) raw)).count (normaliseLine (pyStrip line))) ∧
              (normaliseLine (pyStrip line)).length < 140 then false
          else if isStandalonePage line then false
          else true))) := by
  constructor
  · intro raw n h
    simp only [cleanPdfText]
    rw [if_pos h]
  · intro raw n h2 h10
    simp only [cleanPdfText]
    rw [if_neg (by omega)]
    refine congrArg (pyJoin "\n") (List.filter_congr ?_)
    intro line hline
    by_cases hs : pyStrip line ≠ "" ∧
        normaliseLine (pyStrip line) ∈ repeatedNorms (pySplitChar (Char.ofNat 10) raw) n
    · have hm := mem_repeatedNorms.mp hs.2
      rw [if_pos hs, if_pos (show pyStrip line ≠ "" ∧
        pageThreshold n ≤
          ((normList (pySplitChar (Char.ofNat 10) raw)).count (normaliseLine (pyStrip line))) ∧
        (normaliseLine (pyStrip line)).length < 140 from ⟨hs.1, hm.1, hm.2⟩)]
    · have hB : ¬(pyStrip line ≠ "" ∧
          pageThreshold n ≤
            ((normList (pySplitChar (Char.ofNat 10) raw)).count (normaliseLine (pyStrip line))) ∧
          (normaliseLine (pyStrip line)).length < 140) :=
        fun habs => hs ⟨habs.1, mem_repeatedNorms.mpr ⟨habs.2.1, habs.2.2⟩⟩
      rw [if_neg hs, if_neg hB]

/-- C8: every individual rule check is symmetric in its two clause
arguments — it fires for `(a, b)` exactly when it fires for `(b, a)`,
with the same type, severity and confidence (clause references and
description operands may swap). -/
theorem claim_C8_rule_checker_symmetric (a b : Clause) (ea eb : Ents) :
    (checkNumericMismatch a b).map vSig = (checkNumericMismatch b a).map vSig ∧
    (checkModalMismatch a b).map vSig = (checkModalMismatch b a).map vSig ∧
    (checkAuthorityMismatch a b).map vSig = (checkAuthorityMismatch b a).map vSig ∧
    (checkEntityContradictions a b ea eb).map vSig =
      (checkEntityContradictions b a eb ea).map vSig :=
  ⟨numericMismatch_sig_comm a b, modalMismatch_sig_comm a b,
   authorityMismatch_sig_comm a b, entityContradictions_sig_comm a b ea eb⟩

/-- A concrete numeric rule violation used by the C1 witness. -/
def witViol : Violation := ⟨⟨0, "x"⟩, ⟨1, "y"⟩, "numeric", "high", "d", 9/10⟩

/-- A concrete rule map holding `witViol` under the key `(0, 1)`. -/
def witRuleMap : ℕ × ℕ → Option Violation :=
  fun k => if k = (0, 1) then some witViol else none

/-- A concrete NLI result whose contradiction probability 0.3 fails all
three gates, so only the numeric bypass can store it. -/
def witRes : NLIResult := ⟨0, 1, 3/10, 1/10, 6/10⟩

/-- Witness for C1: the pair `(0, 1)` backed by the numeric rule
`witViol` is stored by both decision layers with confidence 90 even
though its contradiction probability is only 0.3. -/
theorem claim_C1_numeric_bypass_witness :
    (decideSingle witRuleMap [] witRes).map (fun c => c.confidence) = some 90 ∧
    (decideCross witRuleMap [] witRes 7 8).map (fun c => c.confidence) = some 90 := by
  have hc : witRes.contradiction_score < 1/2 := by
    show (3:ℚ)/10 < 1/2
    norm_num
  have h := claim_C1_numeric_bypass witRuleMap [] witRes witViol 7 8 rfl rfl rfl
  exact ⟨by rw [h.2.1, if_pos hc], by rw [h.2.2.2, if_pos hc]⟩

/-- Witness for C3: a candidate pair not backed by any rule whose
contradiction probability equals the 0.75 threshold exactly is rejected
by the single-document worker. -/
theorem claim_C3_gate1_thresholds_witness :
    decideSingle (fun _ => none) [] ⟨0, 1, 3/4, 1/10, 3/20⟩ = none := by
  refine (claim_C3_gate1_thresholds (fun _ => none) []
    ⟨0, 1, 3/4, 1/10, 3/20⟩ 0 1 rfl).1 ?_
  norm_num

end SmartDoc
